import Mathlib

/-!
Verification development for the PyTestAI repository.

The Python sources are shallowly embedded over `List Char`:
`PyTestAI/utils.py` (`get_api_key`, `payload_setup`,
`extract_marked_definitions`, `clean_api_response`) and
`PyTestAI/generator.py` (`generate_test_cases` with its retry loop,
response parsing, and line-oriented cleaning pass).

String operations mirror CPython semantics: `str.strip()` removes the
characters of `isSpaceCh`, `str.splitlines()` splits on the line-break
characters of `isLineBreakCh` (with a CR-LF pair counted once and a
trailing terminator producing no final empty line), the fence-stripping
regex substitution is the scanner `removeFencesL`, and
`str.replace("bash", "")` is `removeBashL`.  Word characters are modelled
as ASCII alphanumerics plus underscore.
-/

namespace PyTestAI

abbrev Chars := List Char

/-- Whitespace characters removed by Python `str.strip()`. -/
def isSpaceCh (c : Char) : Bool :=
  c ∈ [' ', '\t', '\n', '\r', '\x0b', '\x0c',
       '\x1c', '\x1d', '\x1e', '\x1f', '\x85', '\xa0',
       ' ', ' ', ' ', ' ', ' ', ' ',
       ' ', ' ', ' ', ' ', ' ', ' ',
       ' ', ' ', ' ', ' ', '　']

/-- Line-break characters recognised by Python `str.splitlines()`. -/
def isLineBreakCh (c : Char) : Bool :=
  c ∈ ['\n', '\r', '\x0b', '\x0c', '\x1c', '\x1d', '\x1e',
       '\x85', ' ', ' ']

/-- Left trim: drop leading whitespace (the left half of `str.strip()`). -/
def ltrimL (s : Chars) : Chars := s.dropWhile isSpaceCh

/-- Right trim: drop trailing whitespace (the right half of `str.strip()`). -/
def rtrimL : Chars → Chars
  | [] => []
  | c :: rest =>
    match rtrimL rest with
    | [] => if isSpaceCh c then [] else [c]
    | r0 :: rs => c :: r0 :: rs

/-- Python `str.strip()`. -/
def stripL (s : Chars) : Chars := rtrimL (ltrimL s)

/-- Python `str.splitlines()` before the trailing-terminator adjustment:
splits at every line break, a CR-LF pair counting as one break, and yields
one (possibly empty) piece more than the number of breaks. -/
def splitlinesCore : Chars → List Chars
  | [] => [[]]
  | '\r' :: '\n' :: rest => [] :: splitlinesCore rest
  | c :: rest =>
    if isLineBreakCh c then [] :: splitlinesCore rest
    else match splitlinesCore rest with
         | [] => [[c]]
         | l :: ls => (c :: l) :: ls

/-- Python `str.splitlines()`: empty string gives no lines, and a string
ending in a line terminator produces no final empty line. -/
def splitlinesL (s : Chars) : List Chars :=
  if s = [] then []
  else if (splitlinesCore s).getLast? = some [] then (splitlinesCore s).dropLast
  else splitlinesCore s

/-- Python `"\n".join(...)`. -/
def joinNL : List Chars → Chars
  | [] => []
  | [l] => l
  | l :: l2 :: ls => l ++ '\n' :: joinNL (l2 :: ls)

/-- No line-break character occurs in `l`. -/
def breakFree (l : Chars) : Prop := ∀ c ∈ l, isLineBreakCh c = false

/-- Every line break occurring in `s` is a plain newline. -/
def NLOnly (s : Chars) : Prop := ∀ c ∈ s, isLineBreakCh c = true → c = '\n'

/-- The prefixes tested by the line-oriented cleaning pass of
`generate_test_cases`: a line whose stripped text starts with one of these
is kept verbatim (`line.strip().startswith(...)` in generator.py). -/
def markerPrefixes : List Chars :=
  ["#", "```", "from", "import", "def", "assert"].map String.data

def hasMarkerB (st : Chars) : Bool :=
  markerPrefixes.any (fun p => p.isPrefixOf st)

/-- One line of the comment-demotion pass of `generate_test_cases`:
a non-blank line whose stripped text starts with no marker prefix is
rewritten to a comment line, every other line is kept. -/
def commentLineL (line : Chars) : Chars :=
  if !(stripL line).isEmpty && !hasMarkerB (stripL line)
  then '#' :: ' ' :: line
  else line

/-- The whole comment-demotion pass: split lines, demote, re-join. -/
def linePassL (s : Chars) : Chars :=
  joinNL ((splitlinesL s).map commentLineL)

/-- Regex word characters (ASCII model of a word character class). -/
def isWordCh (c : Char) : Bool := c.isAlphanum || c = '_'

def fenceMarker : Chars := "```".data

/-- One step of the global fence-marker removal: each occurrence of the
fence marker together with an optional trailing language tag (a maximal
run of word characters) is deleted, scanning left to right.  The fuel is
the input length, which the scanner never exhausts. -/
def removeFencesAux : Nat → Chars → Chars
  | 0, s => s
  | _ + 1, [] => []
  | fuel + 1, c :: rest =>
    if fenceMarker.isPrefixOf (c :: rest)
    then removeFencesAux fuel (((c :: rest).drop 3).dropWhile isWordCh)
    else c :: removeFencesAux fuel rest

def removeFencesL (s : Chars) : Chars := removeFencesAux s.length s

def bashWord : Chars := "bash".data

/-- Python `str.replace("bash", "")`: delete every occurrence of `bash`,
scanning left to right. -/
def removeBashAux : Nat → Chars → Chars
  | 0, s => s
  | _ + 1, [] => []
  | fuel + 1, c :: rest =>
    if bashWord.isPrefixOf (c :: rest)
    then removeBashAux fuel ((c :: rest).drop 4)
    else c :: removeBashAux fuel rest

def removeBashL (s : Chars) : Chars := removeBashAux s.length s

/-- The full cleaning applied by `generate_test_cases` to the extracted
reply text: comment demotion, fence removal with strip, then `bash`
removal with strip. -/
def cleanL (s : Chars) : Chars :=
  stripL (removeBashL (stripL (removeFencesL (linePassL s))))

def cleanResponse (s : String) : String := ⟨cleanL s.data⟩

/-- Python `str.strip()` on `String`. -/
def pyStrip (s : String) : String := ⟨stripL s.data⟩

/-- Error message raised by `get_api_key` (utils.py). -/
def apiKeyMessage : String :=
  "DEEPSEEK_API_KEY is not set. Please set it using:\n" ++
  "export DEEPSEEK_API_KEY=\x27your_api_key_here\x27  (Linux/macOS)\n" ++
  "set DEEPSEEK_API_KEY=\x27your_api_key_here\x27  (Windows CMD)\n" ++
  "$env:DEEPSEEK_API_KEY=\x27your_api_key_here\x27  (PowerShell)"

/-- `get_api_key` (utils.py): read the environment variable (empty default),
strip whitespace, and fail with setup instructions when the result is
empty. -/
def get_api_key (env : Option String) : Except String String :=
  let api_key := pyStrip (env.getD "")
  if api_key = "" then Except.error apiKeyMessage
  else Except.ok api_key

/-- Static system instruction text of `payload_setup` (utils.py). -/
def systemPrompt : String :=
  "You are a helpful assistant that generates pytest-compatible test cases " ++
  "for Python code. The test cases should import all necessary functions, " ++
  "classes, and modules from the original file. Include proper assertions " ++
  "and test coverage for all major functionalities. The test file should " ++
  "be ready to run directly with `pytest` without any modifications. " ++
  "Any explanations or comments should be formatted as Python comments " ++
  "using the \x27#\x27 symbol."

/-- User message text of `payload_setup` (utils.py). -/
def userPrompt (file_path source_code : String) : String :=
  "Generate pytest test cases for the following Python file:\n\n" ++
  "File Path: " ++ file_path ++ "\n\n" ++
  "Source Code:\n```python\n" ++ source_code ++ "\n```"

structure Message where
  role : String
  content : String

/-- The request payload; the temperature field keeps the spelling of the
source and is modelled as a rational number. -/
structure Payload where
  model : String
  tempreture : Rat
  messages : List Message
  stream : Bool

/-- `payload_setup` (utils.py).  The dictionary literal writes the
`"model"` key twice; the later entry (the `model` parameter) wins. -/
def payload_setup (file_path source_code : String)
    (model : String) (tempreture : Rat) : Payload :=
  { model := model
    tempreture := tempreture
    messages :=
      [ { role := "system", content := systemPrompt },
        { role := "user", content := userPrompt file_path source_code } ]
    stream := false }

inductive Json where
  | null
  | bool (b : Bool)
  | num (n : Int)
  | str (s : String)
  | arr (xs : List Json)
  | obj (kvs : List (String × Json))

/-- Python exception kinds arising in the response-parsing block. -/
inductive PyExc where
  | indexError
  | keyError
  | valueError
  | typeError
  | attributeError

/-- `dict.get`-style lookup: first value bound to the key. -/
def lookupJ : List (String × Json) → String → Option Json
  | [], _ => none
  | (k, v) :: rest, key => if k = key then some v else lookupJ rest key

/-- The extraction
`response.json().get("choices", [{}])[0].get("message", {}).get("content", "").strip()`
of generator.py.  Missing keys fall back to the written defaults; an empty
`"choices"` list raises `IndexError`; values of the wrong shape raise the
corresponding uncaught Python exception. -/
def extractContent (j : Json) : Except PyExc String :=
  match j with
  | Json.obj kvs =>
    match (lookupJ kvs "choices").getD (Json.arr [Json.obj []]) with
    | Json.arr [] => Except.error PyExc.indexError
    | Json.arr (c0 :: _) =>
      match c0 with
      | Json.obj ckvs =>
        match (lookupJ ckvs "message").getD (Json.obj []) with
        | Json.obj mkvs =>
          match (lookupJ mkvs "content").getD (Json.str "") with
          | Json.str s => Except.ok (pyStrip s)
          | _ => Except.error PyExc.attributeError
        | _ => Except.error PyExc.attributeError
      | _ => Except.error PyExc.attributeError
    | _ => Except.error PyExc.typeError
  | _ => Except.error PyExc.attributeError

/-- Extraction plus the emptiness check
`if not test_code: raise ValueError(...)`. -/
def extractChecked (j : Json) : Except PyExc String :=
  match extractContent j with
  | Except.ok s => if s = "" then Except.error PyExc.valueError else Except.ok s
  | Except.error e => Except.error e

inductive GenError where
  | fileNotFound
  | configError (msg : String)
  | httpError (status : Nat)
  | runtimeError
  | uncaught (e : PyExc)

/-- The `try/except (IndexError, KeyError, ValueError)` block of
generator.py: those three exception kinds are wrapped into a
`RuntimeError`; any other exception escapes unchanged. -/
def parseResponse (j : Json) : Except GenError String :=
  match extractChecked j with
  | Except.ok s => Except.ok s
  | Except.error PyExc.indexError => Except.error GenError.runtimeError
  | Except.error PyExc.keyError => Except.error GenError.runtimeError
  | Except.error PyExc.valueError => Except.error GenError.runtimeError
  | Except.error e => Except.error (GenError.uncaught e)

def MAX_RETRIES : Nat := 3

/-- The retry loop of `generate_test_cases`
(`for attempt in range(1, MAX_RETRIES + 1)`): each iteration issues one
POST; on status 429 the loop sleeps and continues, on any other status it
breaks; the last response is kept.  `transport` maps the attempt number to
the (status, body) of the response. -/
def retryAux (transport : Nat → Nat × Json) (attempt : Nat) :
    Nat → Nat × (Nat × Json)
  | 0 => (attempt, transport attempt)
  | r + 1 =>
    if (transport attempt).1 = 429 then retryAux transport (attempt + 1) r
    else (attempt, transport attempt)

def retryLoop (transport : Nat → Nat × Json) : Nat × (Nat × Json) :=
  retryAux transport 1 (MAX_RETRIES - 1)

structure FPath where
  parent : String
  name : String

def pathStr (p : FPath) : String := p.parent ++ "/" ++ p.name

/-- Observable outcome of one `generate_test_cases` run: the returned
value or raised error, the list of files written, and the number of POST
requests issued. -/
structure RunResult where
  result : Except GenError String
  writes : List (String × String)
  attempts : Nat

/-- `generate_test_cases` (generator.py): existence check, credential
lookup, payload construction, retry loop, `raise_for_status` (fatal for
status codes in [400, 600)), response parsing, cleaning, and the single
file write `<parent>/test_<name>` on success. -/
def generateRun (fileExists : Bool) (env : Option String)
    (transport : Nat → Nat × Json) (file_path : FPath)
    (source_code : String) : RunResult :=
  if fileExists = false then
    { result := Except.error GenError.fileNotFound, writes := [], attempts := 0 }
  else
    match get_api_key env with
    | Except.error msg =>
      { result := Except.error (GenError.configError msg), writes := [],
        attempts := 0 }
    | Except.ok _api_key =>
      let _payload := payload_setup (pathStr file_path) source_code "deepseek-chat" 1
      let out := retryLoop transport
      if 400 ≤ out.2.1 ∧ out.2.1 < 600 then
        { result := Except.error (GenError.httpError out.2.1), writes := [],
          attempts := out.1 }
      else
        match parseResponse out.2.2 with
        | Except.error e =>
          { result := Except.error e, writes := [], attempts := out.1 }
        | Except.ok test_code =>
          let cleaned := cleanResponse test_code
          let test_file_path := file_path.parent ++ "/" ++ ("test_" ++ file_path.name)
          { result := Except.ok test_file_path,
            writes := [(test_file_path, cleaned)], attempts := out.1 }

/-- Leftmost occurrence search: `findSplit pat s = some (pre, post)` when
`s` decomposes as `pre ++ pat ++ post` with `pre` shortest, `none` when
`pat` does not occur in `s`. -/
def findSplit (pat : Chars) : Chars → Option (Chars × Chars)
  | [] => if pat.isEmpty then some ([], []) else none
  | c :: rest =>
    if pat.isPrefixOf (c :: rest) then some ([], (c :: rest).drop pat.length)
    else match findSplit pat rest with
         | some (pre, post) => some (c :: pre, post)
         | none => none

def pythonFence : Chars := "```python".data

/-- The two regex passes of `clean_api_response` (utils.py): the same
non-greedy DOTALL pattern drives `re.findall` (collecting code blocks)
and `re.split` (collecting the interleaved prose), so one scan yields
both lists.  A fenced opening without a later closing marker leaves the
remainder unmatched, as the regex engine would.  The fuel is the input
length, which the scan never exhausts. -/
def extractBlocksAux : Nat → Chars → List Chars × List Chars
  | 0, s => ([s], [])
  | fuel + 1, s =>
    match findSplit pythonFence s with
    | none => ([s], [])
    | some (pre, rest) =>
      match findSplit fenceMarker rest with
      | none => ([s], [])
      | some (block, rest2) =>
        let pb := extractBlocksAux fuel rest2
        (pre :: pb.1, block :: pb.2)

def extractBlocks (s : Chars) : List Chars × List Chars :=
  extractBlocksAux s.length s

/-- Python `"\n\n".join(...)`. -/
def joinNN : List Chars → Chars
  | [] => []
  | [l] => l
  | l :: l2 :: ls => l ++ '\n' :: '\n' :: joinNN (l2 :: ls)

def quote3 : Chars := "\"\"\"".data

/-- `clean_api_response` (utils.py): extract python-fenced code blocks,
wrap each stripped nonempty prose part in triple quotes (blank parts give
empty strings), join the prose parts with newlines and the code blocks
with blank lines, and return `commented.strip() + "\n\n" + code.strip()`
stripped once more. -/
def clean_api_responseL (api_response : Chars) : Chars :=
  let pb := extractBlocks api_response
  let commented_text :=
    joinNL (pb.1.map fun part =>
      if (stripL part).isEmpty then [] else quote3 ++ stripL part ++ quote3)
  let cleaned := stripL commented_text ++ '\n' :: '\n' :: stripL (joinNN pb.2)
  stripL cleaned

def clean_api_response (api_response : String) : String :=
  ⟨clean_api_responseL api_response.data⟩

/-- Decorator expressions as found in the AST: a bare name, a call
(parameterized form), or an attribute access. -/
inductive DecoExpr where
  | name (id : String)
  | call (fn : DecoExpr)
  | attr (base : DecoExpr) (field : String)

/-- Top-level statements of the parsed module, each carrying the source
segment that `ast.get_source_segment` recovers for it. -/
inductive PyStmt where
  | importStmt (src : String)
  | importFrom (src : String)
  | funcDef (name : String) (decorators : List DecoExpr) (src : String)
  | classDef (name : String) (decorators : List DecoExpr) (src : String)
  | other (src : String)

/-- The decorator test of `extract_marked_definitions`:
`isinstance(decorator, ast.Name) and decorator.id == "include_in_test"`.
Only the exact, unparameterized marker name matches. -/
def isMarkerDeco : DecoExpr → Bool
  | DecoExpr.name id => id = "include_in_test"
  | _ => false

def isMarkedDef : PyStmt → Bool
  | PyStmt.funcDef _ decos _ => decos.any isMarkerDeco
  | PyStmt.classDef _ decos _ => decos.any isMarkerDeco
  | _ => false

def importSrc : PyStmt → Option String
  | PyStmt.importStmt s => some s
  | PyStmt.importFrom s => some s
  | _ => none

def defSrc : PyStmt → Option String
  | PyStmt.funcDef _ _ s => some s
  | PyStmt.classDef _ _ s => some s
  | _ => none

def syntheticImport : String := "from PyTestAI import include_in_test"

/-- Python `sep.join(...)` on strings. -/
def joinStr (sep : String) : List String → String
  | [] => ""
  | [x] => x
  | x :: y :: rest => x ++ sep ++ joinStr sep (y :: rest)

/-- `extract_marked_definitions` (utils.py), over the parsed module body:
imports in source order, then the definitions carrying the marker, with
the synthetic import line prepended and the blocks joined by newlines and
blank lines. -/
def extract_marked_definitions (body : List PyStmt) : String :=
  let extracted_imports := body.filterMap importSrc
  let extracted_definitions :=
    body.filterMap fun n => if isMarkedDef n then defSrc n else none
  pyStrip (joinStr "\n" (syntheticImport :: extracted_imports) ++
    "\n\n" ++ joinStr "\n\n" extracted_definitions)

/-- The response bodies described by claim C5: the path
`choices[0].message.content` is missing at some key (with well-typed
context up to that point), the `"choices"` list is empty, or the content
string strips to empty. -/
def absentOrEmptyB (kvs : List (String × Json)) : Bool :=
  match lookupJ kvs "choices" with
  | none => true
  | some (Json.arr []) => true
  | some (Json.arr (Json.obj ckvs :: _)) =>
    match lookupJ ckvs "message" with
    | none => true
    | some (Json.obj mkvs) =>
      match lookupJ mkvs "content" with
      | none => true
      | some (Json.str s) => (stripL s.data).isEmpty
      | some _ => false
    | some _ => false
  | some _ => false

/-- Whether the python-fence regex of `clean_api_response` matches
anywhere: an opening `python` fence with a later closing fence. -/
def hasPyBlockB (s : Chars) : Bool :=
  match findSplit pythonFence s with
  | none => false
  | some (_, rest) => (findSplit fenceMarker rest).isSome

/-- A well-formed response body used as a concrete witness input. -/
def goodBody : Json :=
  Json.obj [("choices", Json.arr
    [Json.obj [("message", Json.obj [("content", Json.str "assert True")])]])]

/-- Witness transport: 429 on the first two attempts, then 200 with a
well-formed body. -/
def transportA : Nat → Nat × Json :=
  fun i => if i < 3 then (429, Json.obj []) else (200, goodBody)

/-- Witness transport: every attempt is rate-limited. -/
def transportB : Nat → Nat × Json := fun _ => (429, Json.obj [])

theorem isSpaceCh_of_isLineBreakCh {c : Char} (h : isLineBreakCh c = true) :
    isSpaceCh c = true := by
  simp only [isLineBreakCh, List.mem_cons, List.not_mem_nil, or_false,
    decide_eq_true_eq] at h
  rcases h with rfl | rfl | rfl | rfl | rfl | rfl | rfl | rfl | rfl | rfl <;> decide

theorem ltrimL_nil : ltrimL [] = [] := rfl

theorem ltrimL_cons_of_space {c : Char} (h : isSpaceCh c = true) (s : Chars) :
    ltrimL (c :: s) = ltrimL s := by
  simp [ltrimL, List.dropWhile_cons, h]

theorem ltrimL_cons_of_not_space {c : Char} (h : isSpaceCh c = false) (s : Chars) :
    ltrimL (c :: s) = c :: s := by
  simp [ltrimL, List.dropWhile_cons, h]

theorem ltrimL_idem (s : Chars) : ltrimL (ltrimL s) = ltrimL s := by
  induction s with
  | nil => rfl
  | cons c rest ih =>
    by_cases h : isSpaceCh c = true
    · rw [ltrimL_cons_of_space h, ih]
    · have h' : isSpaceCh c = false := by simpa using h
      rw [ltrimL_cons_of_not_space h', ltrimL_cons_of_not_space h']

theorem rtrimL_cons_of_not_space {c : Char} (h : isSpaceCh c = false) (s : Chars) :
    rtrimL (c :: s) = c :: rtrimL s := by
  by_cases hr : rtrimL s = []
  · simp [rtrimL, hr, h]
  · obtain ⟨r0, rs, hr2⟩ := List.exists_cons_of_ne_nil hr
    simp [rtrimL, hr2]

theorem rtrimL_cons_of_ne_nil {c : Char} {s : Chars} (h : rtrimL s ≠ []) :
    rtrimL (c :: s) = c :: rtrimL s := by
  obtain ⟨r0, rs, hr2⟩ := List.exists_cons_of_ne_nil h
  simp [rtrimL, hr2]

theorem rtrimL_eq_nil_iff (s : Chars) :
    rtrimL s = [] ↔ ∀ c ∈ s, isSpaceCh c = true := by
  induction s with
  | nil => simp [rtrimL]
  | cons c rest ih =>
    constructor
    · intro h
      by_cases hr : rtrimL rest = []
      · by_cases hc : isSpaceCh c = true
        · intro x hx
          rcases List.mem_cons.mp hx with rfl | hx
          · exact hc
          · exact ih.mp hr x hx
        · simp [rtrimL, hr, hc] at h
      · obtain ⟨r0, rs, hr2⟩ := List.exists_cons_of_ne_nil hr
        simp [rtrimL, hr2] at h
    · intro h
      have hr : rtrimL rest = [] := ih.mpr fun x hx => h x (List.mem_cons_of_mem _ hx)
      simp [rtrimL, hr, h c (List.mem_cons_self _ _)]

theorem rtrimL_idem (s : Chars) : rtrimL (rtrimL s) = rtrimL s := by
  induction s with
  | nil => rfl
  | cons c rest ih =>
    by_cases hr : rtrimL rest = []
    · by_cases hc : isSpaceCh c = true
      · simp [rtrimL, hr, hc]
      · simp [rtrimL, hr, hc]
    · rw [rtrimL_cons_of_ne_nil hr, rtrimL_cons_of_ne_nil (by rw [ih]; exact hr), ih]

/-- `rtrimL` and `ltrimL` commute. -/
theorem ltrimL_rtrimL_comm (s : Chars) : ltrimL (rtrimL s) = rtrimL (ltrimL s) := by
  induction s with
  | nil => rfl
  | cons c rest ih =>
    by_cases hr : rtrimL rest = []
    · by_cases hc : isSpaceCh c = true
      · have hl : ltrimL rest = [] := by
          have hall := (rtrimL_eq_nil_iff rest).mp hr
          simp only [ltrimL, List.dropWhile_eq_nil_iff]
          exact hall
        have h1 : rtrimL (c :: rest) = [] := by simp [rtrimL, hr, hc]
        rw [h1, ltrimL_nil, ltrimL_cons_of_space hc, hl]
        rfl
      · have hc' : isSpaceCh c = false := by simpa using hc
        simp [rtrimL, hr, hc', ltrimL_cons_of_not_space hc',
          rtrimL_cons_of_not_space hc']
    · rw [rtrimL_cons_of_ne_nil hr]
      by_cases hc : isSpaceCh c = true
      · rw [ltrimL_cons_of_space hc, ltrimL_cons_of_space hc, ih]
      · have hc' : isSpaceCh c = false := by simpa using hc
        rw [ltrimL_cons_of_not_space hc', ltrimL_cons_of_not_space hc',
          rtrimL_cons_of_ne_nil hr]

theorem stripL_idem (s : Chars) : stripL (stripL s) = stripL s := by
  unfold stripL
  rw [ltrimL_rtrimL_comm (ltrimL s), ltrimL_idem, rtrimL_idem]

theorem stripL_cons_of_not_space {c : Char} (h : isSpaceCh c = false) (s : Chars) :
    stripL (c :: s) = c :: rtrimL s := by
  rw [stripL, ltrimL_cons_of_not_space h, rtrimL_cons_of_not_space h]

theorem stripL_eq_nil_iff (s : Chars) :
    stripL s = [] ↔ ∀ c ∈ s, isSpaceCh c = true := by
  induction s with
  | nil => simp [stripL, ltrimL, rtrimL]
  | cons c rest ih =>
    by_cases hc : isSpaceCh c = true
    · rw [stripL, ltrimL_cons_of_space hc]
      constructor
      · intro h x hx
        rcases List.mem_cons.mp hx with rfl | hx
        · exact hc
        · exact ih.mp h x hx
      · intro h
        exact ih.mpr fun x hx => h x (List.mem_cons_of_mem _ hx)
    · have hc' : isSpaceCh c = false := by simpa using hc
      rw [stripL_cons_of_not_space hc']
      refine iff_of_false (by simp) ?_
      intro h
      exact hc (h c (List.mem_cons_self _ _))

theorem joinNL_cons_of_ne_nil {ls : List Chars} (h : ls ≠ []) (l : Chars) :
    joinNL (l :: ls) = l ++ '\n' :: joinNL ls := by
  cases ls with
  | nil => exact absurd rfl h
  | cons l2 ls2 => rfl

theorem splitlinesCore_ne_nil (s : Chars) : splitlinesCore s ≠ [] := by
  rw [splitlinesCore.eq_def]
  split
  · simp
  · simp
  · split
    · simp
    · split <;> simp

theorem splitlinesCore_cons_of_ne_cr {c : Char} (hc : c ≠ '\r') (rest : Chars) :
    splitlinesCore (c :: rest) =
      if isLineBreakCh c then [] :: splitlinesCore rest
      else match splitlinesCore rest with
           | [] => [[c]]
           | l :: ls => (c :: l) :: ls := by
  rw [splitlinesCore.eq_def]
  split
  · simp_all
  · rename_i heq
    rw [List.cons.injEq] at heq
    exact absurd heq.1 hc
  · rename_i heq
    rw [List.cons.injEq] at heq
    rw [heq.1, heq.2]

theorem splitlinesCore_cons_break {c : Char} (hb : isLineBreakCh c = true)
    (hc : c ≠ '\r') (rest : Chars) :
    splitlinesCore (c :: rest) = [] :: splitlinesCore rest := by
  rw [splitlinesCore_cons_of_ne_cr hc, if_pos hb]

theorem splitlinesCore_cons_not_break {c : Char} (hb : isLineBreakCh c = false)
    {rest : Chars} {l : Chars} {ls : List Chars}
    (hrest : splitlinesCore rest = l :: ls) :
    splitlinesCore (c :: rest) = (c :: l) :: ls := by
  have hc : c ≠ '\r' := by
    rintro rfl
    simp [isLineBreakCh] at hb
  rw [splitlinesCore_cons_of_ne_cr hc, if_neg (by simp [hb]), hrest]

/-- General equation for `splitlinesCore` on a cons cell that is not the
start of a CR-LF pair. -/
theorem splitlinesCore_cons_eq {c : Char} {rest : Chars}
    (hcr : ∀ rest2, c = '\r' → rest = '\n' :: rest2 → False) :
    splitlinesCore (c :: rest) =
      if isLineBreakCh c then [] :: splitlinesCore rest
      else match splitlinesCore rest with
           | [] => [[c]]
           | l :: ls => (c :: l) :: ls := by
  rw [splitlinesCore.eq_def]
  split
  · rename_i heq
    exact absurd heq (List.cons_ne_nil _ _)
  · rename_i rest2 heq
    rw [List.cons.injEq] at heq
    exact (hcr rest2 heq.1 heq.2).elim
  · rename_i heq
    rw [List.cons.injEq] at heq
    rw [heq.1, heq.2]

theorem splitlinesCore_cons_break2 {c : Char} {rest : Chars}
    (hb : isLineBreakCh c = true)
    (hcr : ∀ rest2, c = '\r' → rest = '\n' :: rest2 → False) :
    splitlinesCore (c :: rest) = [] :: splitlinesCore rest := by
  rw [splitlinesCore_cons_eq hcr, if_pos hb]

theorem splitlinesCore_cons_not_break2 {c : Char} (hb : isLineBreakCh c = false)
    {rest : Chars} {l : Chars} {ls : List Chars}
    (hrest : splitlinesCore rest = l :: ls) :
    splitlinesCore (c :: rest) = (c :: l) :: ls := by
  have hc : c ≠ '\r' := by
    rintro rfl
    simp [isLineBreakCh] at hb
  rw [splitlinesCore_cons_eq (fun _ h _ => hc h), if_neg (by simp [hb]), hrest]

theorem splitlinesCore_first_prefix :
    ∀ (s : Chars) {l : Chars} {ls : List Chars},
      splitlinesCore s = l :: ls → l <+: s := by
  intro s
  induction s using splitlinesCore.induct with
  | case1 =>
    intro l ls h
    rw [show splitlinesCore [] = [[]] from rfl, List.cons.injEq] at h
    rw [← h.1]
  | case2 rest ih =>
    intro l ls h
    rw [show splitlinesCore ('\r' :: '\n' :: rest) = [] :: splitlinesCore rest from rfl,
      List.cons.injEq] at h
    rw [← h.1]
    exact List.nil_prefix
  | case3 c rest hcr hb ih =>
    intro l ls h
    rw [splitlinesCore_cons_break2 hb hcr, List.cons.injEq] at h
    rw [← h.1]
    exact List.nil_prefix
  | case4 c rest hcr hb hrest ih =>
    exact absurd hrest (splitlinesCore_ne_nil rest)
  | case5 c rest hcr hb l0 ls0 hrest ih =>
    intro l ls h
    rw [splitlinesCore_cons_not_break2 (by simpa using hb) hrest, List.cons.injEq] at h
    rw [← h.1]
    exact (List.cons_prefix_cons).mpr ⟨rfl, ih hrest⟩

theorem mem_splitlinesCore_infix_breakFree :
    ∀ (s : Chars), ∀ l ∈ splitlinesCore s, l <:+: s ∧ breakFree l := by
  intro s
  induction s using splitlinesCore.induct with
  | case1 =>
    intro l hl
    rw [show splitlinesCore [] = [[]] from rfl] at hl
    rcases List.mem_singleton.mp hl with rfl
    exact ⟨List.nil_infix, fun c hc => absurd hc (List.not_mem_nil c)⟩
  | case2 rest ih =>
    intro l hl
    rw [show splitlinesCore ('\r' :: '\n' :: rest) = [] :: splitlinesCore rest from rfl] at hl
    rcases List.mem_cons.mp hl with rfl | hl
    · exact ⟨List.nil_infix, fun c hc => absurd hc (List.not_mem_nil c)⟩
    · rcases ih l hl with ⟨h1, h2⟩
      exact ⟨List.infix_cons (List.infix_cons h1), h2⟩
  | case3 c rest hcr hb ih =>
    intro l hl
    rw [splitlinesCore_cons_break2 hb hcr] at hl
    rcases List.mem_cons.mp hl with rfl | hl
    · exact ⟨List.nil_infix, fun c hc => absurd hc (List.not_mem_nil c)⟩
    · rcases ih l hl with ⟨h1, h2⟩
      exact ⟨List.infix_cons h1, h2⟩
  | case4 c rest hcr hb hrest ih =>
    exact absurd hrest (splitlinesCore_ne_nil rest)
  | case5 c rest hcr hb l0 ls0 hrest ih =>
    intro l hl
    have hb' : isLineBreakCh c = false := by simpa using hb
    rw [splitlinesCore_cons_not_break2 hb' hrest] at hl
    rcases List.mem_cons.mp hl with rfl | hl
    · refine ⟨((List.cons_prefix_cons).mpr
        ⟨rfl, splitlinesCore_first_prefix rest hrest⟩).isInfix, ?_⟩
      intro x hx
      rcases List.mem_cons.mp hx with rfl | hx
      · exact hb'
      · exact (ih l0 (hrest ▸ List.mem_cons_self _ _)).2 x hx
    · rcases ih l (hrest ▸ List.mem_cons_of_mem _ hl) with ⟨h1, h2⟩
      exact ⟨List.infix_cons h1, h2⟩

theorem mem_splitlinesL_mem_core {s : Chars} {l : Chars}
    (h : l ∈ splitlinesL s) : l ∈ splitlinesCore s := by
  unfold splitlinesL at h
  split at h
  · exact absurd h (List.not_mem_nil l)
  · split at h
    · exact (List.dropLast_prefix _).subset h
    · exact h

/-- A break-free first chunk is absorbed into the first line. -/
theorem splitlinesCore_append_breakFree :
    ∀ (a : Chars), breakFree a → ∀ {t l ls}, splitlinesCore t = l :: ls →
      splitlinesCore (a ++ t) = (a ++ l) :: ls := by
  intro a
  induction a with
  | nil => intro _ t l ls h; simpa using h
  | cons c a' ih =>
    intro hbf t l ls h
    have hc : isLineBreakCh c = false := hbf c (List.mem_cons_self _ _)
    have ih' := ih (fun x hx => hbf x (List.mem_cons_of_mem _ hx)) h
    rw [List.cons_append, splitlinesCore_cons_not_break2 hc ih', List.cons_append]

theorem splitlinesCore_breakFree {a : Chars} (h : breakFree a) :
    splitlinesCore a = [a] := by
  have := @splitlinesCore_append_breakFree a h [] [] [] rfl
  simpa using this

theorem joinNL_cons_head (c : Char) (l : Chars) (ls : List Chars) :
    joinNL ((c :: l) :: ls) = c :: joinNL (l :: ls) := by
  cases ls with
  | nil => rfl
  | cons l2 ls2 => rfl

/-- Joining then re-splitting recovers the original break-free lines. -/
theorem splitlinesCore_joinNL :
    ∀ (L : List Chars), L ≠ [] → (∀ l ∈ L, breakFree l) →
      splitlinesCore (joinNL L) = L := by
  intro L
  induction L with
  | nil => intro h; exact absurd rfl h
  | cons l ls ih =>
    intro _ hbf
    cases ls with
    | nil =>
      rw [show joinNL [l] = l from rfl]
      exact splitlinesCore_breakFree (hbf l (List.mem_cons_self _ _))
    | cons l2 ls2 =>
      rw [joinNL_cons_of_ne_nil (List.cons_ne_nil _ _) l]
      have hrec := ih (List.cons_ne_nil _ _) fun x hx => hbf x (List.mem_cons_of_mem _ hx)
      have hnl : splitlinesCore ('\n' :: joinNL (l2 :: ls2)) =
          [] :: (l2 :: ls2) := by
        rw [splitlinesCore_cons_break2 (by decide) (fun _ h _ => by simp at h), hrec]
      have := splitlinesCore_append_breakFree l (hbf l (List.mem_cons_self _ _)) hnl
      rw [this, List.append_nil]

/-- Splitting then re-joining recovers a newline-only string. -/
theorem joinNL_splitlinesCore :
    ∀ (s : Chars), NLOnly s → joinNL (splitlinesCore s) = s := by
  intro s
  induction s using splitlinesCore.induct with
  | case1 => intro _; rfl
  | case2 rest ih =>
    intro h
    exact absurd (h '\r' (List.mem_cons_self _ _) (by decide)) (by decide)
  | case3 c rest hcr hb ih =>
    intro h
    have hc : c = '\n' := h c (List.mem_cons_self _ _) hb
    subst hc
    rw [splitlinesCore_cons_break2 hb hcr,
      joinNL_cons_of_ne_nil (splitlinesCore_ne_nil rest) []]
    rw [ih fun x hx hbx => h x (List.mem_cons_of_mem _ hx) hbx]
    rfl
  | case4 c rest hcr hb hrest ih =>
    exact absurd hrest (splitlinesCore_ne_nil rest)
  | case5 c rest hcr hb l0 ls0 hrest ih =>
    intro h
    have hb' : isLineBreakCh c = false := by simpa using hb
    rw [splitlinesCore_cons_not_break2 hb' hrest, joinNL_cons_head, ← hrest,
      ih fun x hx hbx => h x (List.mem_cons_of_mem _ hx) hbx]

theorem splitlinesCore_getLast {s : Chars} (h : NLOnly s)
    (hl : (splitlinesCore s).getLast? = some []) :
    s = [] ∨ s.getLast? = some '\n' := by
  induction s using splitlinesCore.induct with
  | case1 => exact Or.inl rfl
  | case2 rest ih =>
    exact absurd (h '\r' (List.mem_cons_self _ _) (by decide)) (by decide)
  | case3 c rest hcr hb ih =>
    have hc : c = '\n' := h c (List.mem_cons_self _ _) hb
    subst hc
    rw [splitlinesCore_cons_break2 hb hcr] at hl
    rcases rest with _ | ⟨r, rest'⟩
    · exact Or.inr rfl
    · obtain ⟨l0, ls0, hc0⟩ := List.exists_cons_of_ne_nil (splitlinesCore_ne_nil (r :: rest'))
      rw [hc0, List.getLast?_cons_cons, ← hc0] at hl
      rcases ih (fun x hx hbx => h x (List.mem_cons_of_mem _ hx) hbx) hl with h1 | h1
      · exact absurd h1 (List.cons_ne_nil _ _)
      · exact Or.inr (by rw [List.getLast?_cons_cons]; exact h1)
  | case4 c rest hcr hb hrest ih =>
    exact absurd hrest (splitlinesCore_ne_nil rest)
  | case5 c rest hcr hb l0 ls0 hrest ih =>
    have hb' : isLineBreakCh c = false := by simpa using hb
    rw [splitlinesCore_cons_not_break2 hb' hrest] at hl
    rcases ls0 with _ | ⟨a0, t0⟩
    · simp at hl
    · rw [List.getLast?_cons_cons] at hl
      have hl' : (splitlinesCore rest).getLast? = some [] := by
        rw [hrest, List.getLast?_cons_cons]
        exact hl
      rcases ih (fun x hx hbx => h x (List.mem_cons_of_mem _ hx) hbx) hl' with h1 | h1
      · rw [h1] at hrest
        rw [show splitlinesCore [] = [[]] from rfl] at hrest
        exact absurd hrest.symm (by simp)
      · have hrn : rest ≠ [] := by
          rintro rfl
          rw [show splitlinesCore [] = [[]] from rfl] at hrest
          exact absurd hrest.symm (by simp)
        obtain ⟨r, rest', hr⟩ := List.exists_cons_of_ne_nil hrn
        subst hr
        exact Or.inr (by rw [List.getLast?_cons_cons]; exact h1)

theorem splitlinesL_eq_core {v : Chars} (hN : NLOnly v) (hv : v ≠ [])
    (hlast : v.getLast? ≠ some '\n') :
    splitlinesL v = splitlinesCore v := by
  unfold splitlinesL
  rw [if_neg hv, if_neg]
  intro h
  rcases splitlinesCore_getLast hN h with h1 | h1
  · exact hv h1
  · exact hlast h1

theorem joinNL_splitlinesL {v : Chars} (hN : NLOnly v)
    (hlast : v.getLast? ≠ some '\n') :
    joinNL (splitlinesL v) = v := by
  by_cases hv : v = []
  · subst hv; rfl
  · rw [splitlinesL_eq_core hN hv hlast, joinNL_splitlinesCore v hN]

theorem stripL_cons_of_space {c : Char} (h : isSpaceCh c = true) (s : Chars) :
    stripL (c :: s) = stripL s := by
  rw [stripL, ltrimL_cons_of_space h]
  rfl

theorem rtrimL_append_allspace {z : Chars} (hz : ∀ c ∈ z, isSpaceCh c = true) :
    ∀ x : Chars, rtrimL (x ++ z) = rtrimL x := by
  intro x
  induction x with
  | nil =>
    rw [List.nil_append]
    exact (rtrimL_eq_nil_iff z).mpr hz
  | cons c x' ih =>
    rw [List.cons_append]
    by_cases hr : rtrimL x' = []
    · have hrz : rtrimL (x' ++ z) = [] := by rw [ih, hr]
      by_cases hc : isSpaceCh c = true
      · simp [rtrimL, hrz, hr, hc]
      · simp [rtrimL, hrz, hr, hc]
    · rw [rtrimL_cons_of_ne_nil (by rw [ih]; exact hr), rtrimL_cons_of_ne_nil hr, ih]

theorem stripL_append_allspace {z : Chars} (hz : ∀ c ∈ z, isSpaceCh c = true)
    (x : Chars) : stripL (x ++ z) = stripL x := by
  rw [stripL, ← ltrimL_rtrimL_comm, rtrimL_append_allspace hz,
    ltrimL_rtrimL_comm]
  rfl

theorem rtrimL_decomp (s : Chars) :
    ∃ ws, s = rtrimL s ++ ws ∧ ∀ c ∈ ws, isSpaceCh c = true := by
  induction s with
  | nil => exact ⟨[], rfl, by simp⟩
  | cons c rest ih =>
    obtain ⟨ws, hws, hsp⟩ := ih
    by_cases hr : rtrimL rest = []
    · by_cases hc : isSpaceCh c = true
      · refine ⟨c :: rest, ?_, ?_⟩
        · simp [rtrimL, hr, hc]
        · intro x hx
          rcases List.mem_cons.mp hx with rfl | hx
          · exact hc
          · exact (rtrimL_eq_nil_iff rest).mp hr x hx
      · refine ⟨rest, ?_, (rtrimL_eq_nil_iff rest).mp hr⟩
        simp [rtrimL, hr, hc]
    · refine ⟨ws, ?_, hsp⟩
      rw [rtrimL_cons_of_ne_nil hr, List.cons_append, ← hws]

theorem rtrimL_prefix_self (s : Chars) : rtrimL s <+: s := by
  obtain ⟨ws, hws, _⟩ := rtrimL_decomp s
  exact ⟨ws, hws.symm⟩

theorem stripL_infix_self (s : Chars) : stripL s <:+: s := by
  have h1 : rtrimL (ltrimL s) <+: ltrimL s := rtrimL_prefix_self _
  have h2 : ltrimL s <:+ s := List.dropWhile_suffix _
  exact h1.isInfix.trans h2.isInfix

theorem NLOnly.mono {s t : Chars} (h : NLOnly s) (hsub : t ⊆ s) : NLOnly t :=
  fun c hc hb => h c (hsub hc) hb

/-- Prepending all-whitespace text only changes lines up to stripping. -/
theorem stripPre_transfer :
    ∀ (sp : Chars), (∀ c ∈ sp, isSpaceCh c = true) → ∀ (y : Chars),
      NLOnly (sp ++ y) →
      ∀ l ∈ splitlinesCore y, ∃ li ∈ splitlinesCore (sp ++ y), stripL l = stripL li := by
  intro sp
  induction sp with
  | nil =>
    intro _ y _ l hl
    exact ⟨l, by simpa using hl, rfl⟩
  | cons c sp' ih =>
    intro hsp y hN l hl
    have hc : isSpaceCh c = true := hsp c (List.mem_cons_self _ _)
    have hN' : NLOnly (sp' ++ y) :=
      hN.mono (by rw [List.cons_append]; exact List.subset_cons_self _ _)
    obtain ⟨li, hli, heq⟩ :=
      ih (fun x hx => hsp x (List.mem_cons_of_mem _ hx)) y hN' l hl
    rw [List.cons_append]
    by_cases hb : isLineBreakCh c = true
    · have hcn : c = '\n' := hN c (by rw [List.cons_append]; exact List.mem_cons_self _ _) hb
      subst hcn
      rw [splitlinesCore_cons_break2 hb (fun _ h _ => by simp at h)]
      exact ⟨li, List.mem_cons_of_mem _ hli, heq⟩
    · obtain ⟨h2, t2, hcore⟩ :=
        List.exists_cons_of_ne_nil (splitlinesCore_ne_nil (sp' ++ y))
      rw [splitlinesCore_cons_not_break2 (by simpa using hb) hcore]
      rw [hcore] at hli
      rcases List.mem_cons.mp hli with rfl | hli
      · exact ⟨c :: li, List.mem_cons_self _ _, by rw [heq, stripL_cons_of_space hc]⟩
      · exact ⟨li, List.mem_cons_of_mem _ hli, heq⟩

/-- Appending all-whitespace text extends the last line by whitespace and
keeps the other lines; stated via the first line and the tail. -/
theorem stripSuf_transfer :
    ∀ (y z : Chars), (∀ c ∈ z, isSpaceCh c = true) → NLOnly (y ++ z) →
      (∃ w, (splitlinesCore (y ++ z)).headI = (splitlinesCore y).headI ++ w ∧
        ∀ c ∈ w, isSpaceCh c = true) ∧
      (∀ l ∈ (splitlinesCore y).tail,
        ∃ li ∈ (splitlinesCore (y ++ z)).tail, stripL l = stripL li) := by
  intro y
  induction y with
  | nil =>
    intro z hz _
    obtain ⟨hz0, tz0, hcz⟩ := List.exists_cons_of_ne_nil (splitlinesCore_ne_nil z)
    constructor
    · refine ⟨hz0, ?_, ?_⟩
      · rw [List.nil_append, hcz]
        rfl
      · intro c hc
        have hmem : c ∈ z :=
          ((mem_splitlinesCore_infix_breakFree z hz0
            (hcz ▸ List.mem_cons_self _ _)).1.subset) hc
        exact hz c hmem
    · intro l hl
      exact absurd hl (by simp [splitlinesCore])
  | cons c y' ih =>
    intro z hz hN
    have hN' : NLOnly (y' ++ z) :=
      hN.mono (by rw [List.cons_append]; exact List.subset_cons_self _ _)
    obtain ⟨⟨w, hw, hwsp⟩, htail⟩ := ih z hz hN'
    rw [List.cons_append]
    by_cases hb : isLineBreakCh c = true
    · have hcn : c = '\n' := hN c (by rw [List.cons_append]; exact List.mem_cons_self _ _) hb
      subst hcn
      rw [splitlinesCore_cons_break2 hb (fun _ h _ => by simp at h),
        splitlinesCore_cons_break2 hb (fun _ h _ => by simp at h)]
      refine ⟨⟨[], by simp, by simp⟩, ?_⟩
      intro l hl
      rw [List.tail_cons] at hl ⊢
      obtain ⟨h0, t0, hcy⟩ := List.exists_cons_of_ne_nil (splitlinesCore_ne_nil y')
      rw [hcy] at hl
      rcases List.mem_cons.mp hl with rfl | hl
      · obtain ⟨h2, t2, hcz⟩ := List.exists_cons_of_ne_nil (splitlinesCore_ne_nil (y' ++ z))
        refine ⟨h2, hcz ▸ List.mem_cons_self _ _, ?_⟩
        rw [hcz] at hw
        rw [hcy] at hw
        simp only [List.headI] at hw
        rw [hw, stripL_append_allspace hwsp]
      · obtain ⟨li, hli, heq⟩ := htail l (by rw [hcy]; exact hl)
        exact ⟨li, (List.tail_sublist _).subset hli, heq⟩
    · obtain ⟨h0, t0, hcy⟩ := List.exists_cons_of_ne_nil (splitlinesCore_ne_nil y')
      obtain ⟨h2, t2, hcz⟩ := List.exists_cons_of_ne_nil (splitlinesCore_ne_nil (y' ++ z))
      rw [splitlinesCore_cons_not_break2 (by simpa using hb) hcy,
        splitlinesCore_cons_not_break2 (by simpa using hb) hcz]
      rw [hcy, hcz] at hw
      simp only [List.headI] at hw
      constructor
      · exact ⟨w, by simp only [List.headI]; rw [hw, List.cons_append], hwsp⟩
      · intro l hl
        rw [List.tail_cons] at hl ⊢
        obtain ⟨li, hli, heq⟩ := htail l (by rw [hcy]; exact hl)
        rw [hcz, List.tail_cons] at hli
        exact ⟨li, hli, heq⟩

/-- Every line of the stripped string agrees, up to stripping, with a line
of the original newline-only string. -/
theorem strip_lines_transfer {u : Chars} (hN : NLOnly u) :
    ∀ l ∈ splitlinesCore (stripL u), ∃ li ∈ splitlinesCore u, stripL l = stripL li := by
  intro l hl
  obtain ⟨ws, hsplit, hwsp⟩ := rtrimL_decomp (ltrimL u)
  have hsplit' : stripL u ++ ws = ltrimL u := hsplit.symm
  have hNl : NLOnly (ltrimL u) := hN.mono (List.dropWhile_suffix _).subset
  have hNl' : NLOnly (stripL u ++ ws) := by rw [hsplit']; exact hNl
  obtain ⟨⟨w, hw, hwsp2⟩, htail⟩ := stripSuf_transfer (stripL u) ws hwsp hNl'
  rw [hsplit'] at hw htail
  have step1 : ∃ l1 ∈ splitlinesCore (ltrimL u), stripL l = stripL l1 := by
    obtain ⟨h0, t0, hc0⟩ := List.exists_cons_of_ne_nil (splitlinesCore_ne_nil (stripL u))
    obtain ⟨h1, t1, hc1⟩ := List.exists_cons_of_ne_nil (splitlinesCore_ne_nil (ltrimL u))
    rw [hc0] at hl
    rcases List.mem_cons.mp hl with rfl | hl2
    · refine ⟨h1, hc1 ▸ List.mem_cons_self _ _, ?_⟩
      rw [hc0, hc1] at hw
      simp only [List.headI] at hw
      rw [hw, stripL_append_allspace hwsp2]
    · obtain ⟨li, hli, heq⟩ := htail l (by rw [hc0, List.tail_cons]; exact hl2)
      exact ⟨li, (List.tail_sublist _).subset hli, heq⟩
  obtain ⟨l1, hl1, heq1⟩ := step1
  have htd : List.takeWhile isSpaceCh u ++ ltrimL u = u :=
    List.takeWhile_append_dropWhile _ _
  have hNfull : NLOnly (List.takeWhile isSpaceCh u ++ ltrimL u) := by
    rw [htd]; exact hN
  obtain ⟨li, hli, heq2⟩ := stripPre_transfer (List.takeWhile isSpaceCh u)
    (fun c hc => List.mem_takeWhile_imp hc) (ltrimL u) hNfull l1 hl1
  rw [htd] at hli
  exact ⟨li, hli, heq1.trans heq2⟩

theorem commentLineL_eq_comment {l : Chars}
    (h1 : (stripL l).isEmpty = false) (h2 : hasMarkerB (stripL l) = false) :
    commentLineL l = '#' :: ' ' :: l := by
  rw [commentLineL, if_pos (by rw [h1, h2]; rfl)]

theorem commentLineL_eq_self {l : Chars}
    (h : (stripL l).isEmpty = true ∨ hasMarkerB (stripL l) = true) :
    commentLineL l = l := by
  rcases h with h | h <;>
    rw [commentLineL, if_neg (by rw [h]; simp)]

/-- A line is fixed by the demotion step iff it is blank or starts (after
stripping) with a marker prefix. -/
theorem commentLineL_fixed_iff (l : Chars) :
    commentLineL l = l ↔
      ((stripL l).isEmpty = true ∨ hasMarkerB (stripL l) = true) := by
  constructor
  · intro h
    by_contra hcon
    push_neg at hcon
    rw [commentLineL_eq_comment (by simpa using hcon.1) (by simpa using hcon.2)] at h
    have := congrArg List.length h
    simp at this
    omega
  · exact commentLineL_eq_self

theorem commentLineL_idem (l : Chars) :
    commentLineL (commentLineL l) = commentLineL l := by
  by_cases h1 : (stripL l).isEmpty = true ∨ hasMarkerB (stripL l) = true
  · rw [commentLineL_eq_self h1, commentLineL_eq_self h1]
  · push_neg at h1
    have hc : commentLineL l = '#' :: ' ' :: l :=
      commentLineL_eq_comment (by simpa using h1.1) (by simpa using h1.2)
    rw [hc]
    refine commentLineL_eq_self (Or.inr ?_)
    have hst : stripL ('#' :: ' ' :: l) = '#' :: rtrimL (' ' :: l) :=
      stripL_cons_of_not_space (by decide) _
    rw [hst, hasMarkerB]
    refine List.any_eq_true.mpr ⟨"#".data, by simp [markerPrefixes], ?_⟩
    rw [List.isPrefixOf_iff_prefix]
    exact (List.cons_prefix_cons).mpr ⟨rfl, List.nil_prefix⟩

/-- Fixedness under the demotion step only depends on the stripped text. -/
theorem commentLineL_fixed_of_strip_eq {l l2 : Chars}
    (hs : stripL l = stripL l2) (h : commentLineL l2 = l2) :
    commentLineL l = l := by
  rw [commentLineL_fixed_iff] at h ⊢
  rw [hs]
  exact h

theorem breakFree_commentLineL {l : Chars} (h : breakFree l) :
    breakFree (commentLineL l) := by
  by_cases h1 : (stripL l).isEmpty = true ∨ hasMarkerB (stripL l) = true
  · rw [commentLineL_eq_self h1]; exact h
  · push_neg at h1
    rw [commentLineL_eq_comment (by simpa using h1.1) (by simpa using h1.2)]
    intro c hc
    rcases List.mem_cons.mp hc with rfl | hc
    · decide
    · rcases List.mem_cons.mp hc with rfl | hc
      · decide
      · exact h c hc

theorem prefix_append_split {α : Type} {p x y : List α} (h : p <+: x ++ y) :
    p <+: x ∨ ∃ q, p = x ++ q ∧ q <+: y := by
  induction x generalizing p with
  | nil => exact Or.inr ⟨p, by simp, by simpa using h⟩
  | cons a x' ih =>
    cases p with
    | nil => exact Or.inl List.nil_prefix
    | cons b p' =>
      rw [List.cons_append] at h
      obtain ⟨hab, hp⟩ := List.cons_prefix_cons.mp h
      subst hab
      rcases ih hp with h1 | ⟨q, hq1, hq2⟩
      · exact Or.inl (List.cons_prefix_cons.mpr ⟨rfl, h1⟩)
      · exact Or.inr ⟨q, by rw [List.cons_append, hq1], hq2⟩

theorem not_infix_cons_of_head {p : Chars} {h0 : Char} (hp : p.head? = some h0)
    {c : Char} (hne : h0 ≠ c) {rest : Chars} (hni : ¬ p <:+: rest) :
    ¬ p <:+: (c :: rest) := by
  intro hinf
  rcases List.infix_cons_iff.mp hinf with hpre | hinf2
  · cases p with
    | nil => simp at hp
    | cons b p' =>
      obtain ⟨hbc, _⟩ := List.cons_prefix_cons.mp hpre
      rw [List.head?_cons, Option.some.injEq] at hp
      exact hne (hp ▸ hbc)
  · exact hni hinf2

theorem not_infix_append_sep {p : Chars} (hnl : '\n' ∉ p) (hne : p ≠ []) :
    ∀ {a b : Chars}, ¬ p <:+: a → ¬ p <:+: b → ¬ p <:+: (a ++ '\n' :: b) := by
  intro a
  induction a with
  | nil =>
    intro b _ hb h
    rw [List.nil_append] at h
    rcases List.infix_cons_iff.mp h with hpre | hinf
    · cases p with
      | nil => exact hne rfl
      | cons q p' =>
        obtain ⟨rfl, _⟩ := List.cons_prefix_cons.mp hpre
        exact hnl (List.mem_cons_self _ _)
    · exact hb hinf
  | cons c a' ih =>
    intro b ha hb h
    have ha' : ¬ p <:+: a' := fun hx => ha (List.infix_cons hx)
    rw [List.cons_append] at h
    rcases List.infix_cons_iff.mp h with hpre | hinf
    · cases p with
      | nil => exact hne rfl
      | cons q p' =>
        obtain ⟨rfl, hp'⟩ := List.cons_prefix_cons.mp hpre
        rcases prefix_append_split hp' with h1 | ⟨r, hr1, hr2⟩
        · exact ha (List.cons_prefix_cons.mpr ⟨rfl, h1⟩).isInfix
        · cases r with
          | nil =>
            rw [List.append_nil] at hr1
            exact ha (hr1 ▸ List.infix_rfl : (q :: p') <:+: (q :: a'))
          | cons r0 r' =>
            obtain ⟨hr0, _⟩ := List.cons_prefix_cons.mp hr2
            subst hr0
            exact hnl (List.mem_cons_of_mem _
              (hr1 ▸ List.mem_append.mpr (Or.inr (List.mem_cons_self _ _))))
    · exact ih ha' hb hinf

theorem not_infix_joinNL {p : Chars} (hnl : '\n' ∉ p) (hne : p ≠ []) :
    ∀ {L : List Chars}, (∀ l ∈ L, ¬ p <:+: l) → ¬ p <:+: joinNL L := by
  intro L
  induction L with
  | nil =>
    intro _ h
    exact hne (List.infix_nil.mp h)
  | cons l ls ih =>
    intro h
    cases ls with
    | nil => exact h l (List.mem_cons_self _ _)
    | cons l2 ls2 =>
      rw [joinNL_cons_of_ne_nil (List.cons_ne_nil _ _) l]
      exact not_infix_append_sep hnl hne (h l (List.mem_cons_self _ _))
        (ih fun x hx => h x (List.mem_cons_of_mem _ hx))

theorem not_infix_commentLineL {p : Chars} {h0 : Char} (hp : p.head? = some h0)
    (h1 : h0 ≠ '#') (h2 : h0 ≠ ' ') {l : Chars} (h : ¬ p <:+: l) :
    ¬ p <:+: commentLineL l := by
  by_cases hfix : (stripL l).isEmpty = true ∨ hasMarkerB (stripL l) = true
  · rw [commentLineL_eq_self hfix]; exact h
  · push_neg at hfix
    rw [commentLineL_eq_comment (by simpa using hfix.1) (by simpa using hfix.2)]
    exact not_infix_cons_of_head hp h1 (not_infix_cons_of_head hp h2 h)

theorem removeFencesAux_id :
    ∀ (fuel : Nat) (s : Chars), ¬ fenceMarker <:+: s → removeFencesAux fuel s = s := by
  intro fuel
  induction fuel with
  | zero => intro s _; rfl
  | succ n ih =>
    intro s h
    cases s with
    | nil => rfl
    | cons c rest =>
      rw [removeFencesAux, if_neg, ih rest fun hx => h (List.infix_cons hx)]
      intro hpre
      exact h (List.isPrefixOf_iff_prefix.mp hpre).isInfix

theorem removeFencesL_id {s : Chars} (h : ¬ fenceMarker <:+: s) :
    removeFencesL s = s :=
  removeFencesAux_id _ s h

theorem removeBashAux_id :
    ∀ (fuel : Nat) (s : Chars), ¬ bashWord <:+: s → removeBashAux fuel s = s := by
  intro fuel
  induction fuel with
  | zero => intro s _; rfl
  | succ n ih =>
    intro s h
    cases s with
    | nil => rfl
    | cons c rest =>
      rw [removeBashAux, if_neg, ih rest fun hx => h (List.infix_cons hx)]
      intro hpre
      exact h (List.isPrefixOf_iff_prefix.mp hpre).isInfix

theorem removeBashL_id {s : Chars} (h : ¬ bashWord <:+: s) :
    removeBashL s = s :=
  removeBashAux_id _ s h

theorem rtrimL_getLast :
    ∀ {s : Chars} {d : Char}, (rtrimL s).getLast? = some d → isSpaceCh d = false := by
  intro s
  induction s with
  | nil => intro d h; simp [rtrimL] at h
  | cons c rest ih =>
    intro d h
    by_cases hr : rtrimL rest = []
    · by_cases hc : isSpaceCh c = true
      · rw [show rtrimL (c :: rest) = [] from by simp [rtrimL, hr, hc]] at h
        simp at h
      · rw [show rtrimL (c :: rest) = [c] from by simp [rtrimL, hr, hc]] at h
        simp only [List.getLast?_singleton, Option.some.injEq] at h
        subst h
        simpa using hc
    · rw [rtrimL_cons_of_ne_nil hr] at h
      obtain ⟨a, t, ht⟩ := List.exists_cons_of_ne_nil hr
      rw [ht, List.getLast?_cons_cons, ← ht] at h
      exact ih h

theorem stripL_getLast {s : Chars} {d : Char}
    (h : (stripL s).getLast? = some d) : isSpaceCh d = false :=
  rtrimL_getLast h

theorem NLOnly_joinNL :
    ∀ {L : List Chars}, (∀ l ∈ L, breakFree l) → NLOnly (joinNL L) := by
  intro L
  induction L with
  | nil => intro _ c hc; exact absurd hc (List.not_mem_nil c)
  | cons l ls ih =>
    intro h
    cases ls with
    | nil =>
      intro c hc hb
      exact absurd (h l (List.mem_cons_self _ _) c hc) (by rw [hb]; simp)
    | cons l2 ls2 =>
      rw [joinNL_cons_of_ne_nil (List.cons_ne_nil _ _) l]
      intro c hc hb
      rcases List.mem_append.mp hc with hc1 | hc2
      · exact absurd (h l (List.mem_cons_self _ _) c hc1) (by rw [hb]; simp)
      · rcases List.mem_cons.mp hc2 with rfl | hc3
        · rfl
        · exact ih (fun x hx => h x (List.mem_cons_of_mem _ hx)) c hc3 hb

theorem linePass_lines_props {s : Chars}
    (hf : ¬ fenceMarker <:+: s) (hb : ¬ bashWord <:+: s) :
    ∀ m ∈ (splitlinesL s).map commentLineL,
      breakFree m ∧ commentLineL m = m ∧
      ¬ fenceMarker <:+: m ∧ ¬ bashWord <:+: m := by
  intro m hm
  obtain ⟨l, hl, rfl⟩ := List.mem_map.mp hm
  obtain ⟨hinf, hbf⟩ :=
    mem_splitlinesCore_infix_breakFree s l (mem_splitlinesL_mem_core hl)
  refine ⟨breakFree_commentLineL hbf, commentLineL_idem l, ?_, ?_⟩
  · exact not_infix_commentLineL (by rfl) (by decide) (by decide)
      fun hx => hf (hx.trans hinf)
  · exact not_infix_commentLineL (by rfl) (by decide) (by decide)
      fun hx => hb (hx.trans hinf)

theorem cleanL_eq_strip_linePass {s : Chars}
    (hf : ¬ fenceMarker <:+: s) (hb : ¬ bashWord <:+: s) :
    cleanL s = stripL (linePassL s) := by
  have hprops := linePass_lines_props hf hb
  have hfU : ¬ fenceMarker <:+: linePassL s :=
    not_infix_joinNL (by decide) (by decide) fun m hm => (hprops m hm).2.2.1
  have hbU : ¬ bashWord <:+: linePassL s :=
    not_infix_joinNL (by decide) (by decide) fun m hm => (hprops m hm).2.2.2
  have hbV : ¬ bashWord <:+: stripL (linePassL s) :=
    fun hx => hbU (hx.trans (stripL_infix_self _))
  rw [cleanL, removeFencesL_id hfU, removeBashL_id hbV, stripL_idem]

theorem cleanL_fixes_strip_linePass {s : Chars}
    (hf : ¬ fenceMarker <:+: s) (hb : ¬ bashWord <:+: s) :
    cleanL (stripL (linePassL s)) = stripL (linePassL s) := by
  have hprops := linePass_lines_props hf hb
  have hNu : NLOnly (linePassL s) :=
    NLOnly_joinNL fun m hm => (hprops m hm).1
  have hfU : ¬ fenceMarker <:+: linePassL s :=
    not_infix_joinNL (by decide) (by decide) fun m hm => (hprops m hm).2.2.1
  have hbU : ¬ bashWord <:+: linePassL s :=
    not_infix_joinNL (by decide) (by decide) fun m hm => (hprops m hm).2.2.2
  set v := stripL (linePassL s) with hv
  have hvinf : v <:+: linePassL s := stripL_infix_self _
  have hNv : NLOnly v := hNu.mono hvinf.subset
  have hfV : ¬ fenceMarker <:+: v := fun hx => hfU (hx.trans hvinf)
  have hbV : ¬ bashWord <:+: v := fun hx => hbU (hx.trans hvinf)
  have hvstrip : stripL v = v := stripL_idem _
  have hlast : v.getLast? ≠ some '\n' := by
    intro h
    have := @stripL_getLast (linePassL s) '\n' (by rw [← hv]; exact h)
    simp [isSpaceCh] at this
  have hfix : ∀ l ∈ splitlinesL v, commentLineL l = l := by
    intro l hl
    have hvne : v ≠ [] := by
      rintro hnil
      rw [hnil] at hl
      simp [splitlinesL] at hl
    have hMne : (splitlinesL s).map commentLineL ≠ [] := by
      intro hM
      have hu : linePassL s = [] := by rw [linePassL, hM]; rfl
      exact hvne (by rw [hv, hu]; rfl)
    have hcoreu : splitlinesCore (linePassL s) = (splitlinesL s).map commentLineL :=
      splitlinesCore_joinNL _ hMne fun m hm => (hprops m hm).1
    obtain ⟨li, hli, heq⟩ :=
      strip_lines_transfer hNu l (mem_splitlinesL_mem_core hl)
    rw [hcoreu] at hli
    exact commentLineL_fixed_of_strip_eq heq (hprops li hli).2.1
  have hpass : linePassL v = v := by
    rw [linePassL, List.map_congr_left (fun a ha => hfix a ha),
      List.map_id', joinNL_splitlinesL hNv hlast]
  rw [cleanL, hpass, removeFencesL_id hfV, hvstrip, removeBashL_id hbV, hvstrip]

/-- On inputs containing neither a fence marker nor the substring `bash`,
the full cleaning transformation is idempotent. -/
theorem cleanL_idem_of_not_infix {s : Chars}
    (hf : ¬ fenceMarker <:+: s) (hb : ¬ bashWord <:+: s) :
    cleanL (cleanL s) = cleanL s := by
  rw [cleanL_eq_strip_linePass hf hb, cleanL_fixes_strip_linePass hf hb]

/-- Claim C2: for every non-empty source text `S` and file path `P`, the
payload built by `payload_setup` holds exactly one system message followed
by exactly one user message, the user content contains `S` verbatim and
the string form of `P`, and streaming is disabled. -/
theorem c2_payload_structure (P S : String) (_hS : S ≠ "") :
    ∃ sysm usrm : Message,
      (payload_setup P S "deepseek-chat" 1).messages = [sysm, usrm] ∧
      sysm.role = "system" ∧ usrm.role = "user" ∧
      S.data <:+: usrm.content.data ∧
      P.data <:+: usrm.content.data ∧
      (payload_setup P S "deepseek-chat" 1).stream = false := by
  refine ⟨_, _, rfl, rfl, rfl, ?_, ?_, rfl⟩
  · show S.data <:+: (userPrompt P S).data
    refine ⟨("Generate pytest test cases for the following Python file:\n\n" ++
      "File Path: " ++ P ++ "\n\n" ++ "Source Code:\n```python\n").data,
      "\n```".data, ?_⟩
    simp [userPrompt, List.append_assoc]
  · show P.data <:+: (userPrompt P S).data
    refine ⟨"Generate pytest test cases for the following Python file:\n\nFile Path: ".data,
      ("\n\n" ++ "Source Code:\n```python\n" ++ S ++ "\n```").data, ?_⟩
    simp [userPrompt, List.append_assoc]

theorem c2_payload_structure_witness :
    ("x = 1\n" : String) ≠ "" ∧
    ∃ sysm usrm : Message,
      (payload_setup "src/app.py" "x = 1\n" "deepseek-chat" 1).messages = [sysm, usrm] ∧
      sysm.role = "system" ∧ usrm.role = "user" ∧
      ("x = 1\n" : String).data <:+: usrm.content.data ∧
      ("src/app.py" : String).data <:+: usrm.content.data ∧
      (payload_setup "src/app.py" "x = 1\n" "deepseek-chat" 1).stream = false :=
  ⟨by decide, c2_payload_structure "src/app.py" "x = 1\n" (by decide)⟩

/-- Claim C3: in the line-oriented cleaning pass, every non-blank line
whose stripped text starts with none of the marker prefixes is rewritten
to a comment line with prefix `# `, and every other line (blank or
marker-prefixed, definition keyword included) is kept verbatim. -/
theorem c3_comment_demotion (t : String) :
    linePassL t.data = joinNL ((splitlinesL t.data).map commentLineL) ∧
    ∀ l ∈ splitlinesL t.data,
      ((stripL l ≠ [] ∧ hasMarkerB (stripL l) = false) →
        commentLineL l = '#' :: ' ' :: l) ∧
      ((stripL l = [] ∨ hasMarkerB (stripL l) = true) → commentLineL l = l) := by
  refine ⟨rfl, ?_⟩
  intro l _
  constructor
  · rintro ⟨h1, h2⟩
    exact commentLineL_eq_comment (by simpa using h1) h2
  · intro h
    refine commentLineL_eq_self ?_
    rcases h with h | h
    · exact Or.inl (by simpa using h)
    · exact Or.inr h

theorem c3_comment_demotion_witness :
    ("hello".data ∈ splitlinesL ("hello\nimport os" : String).data) ∧
    (stripL "hello".data ≠ [] ∧ hasMarkerB (stripL "hello".data) = false) ∧
    commentLineL "hello".data = '#' :: ' ' :: "hello".data ∧
    ("import os".data ∈ splitlinesL ("hello\nimport os" : String).data) ∧
    (stripL "import os".data = [] ∨ hasMarkerB (stripL "import os".data) = true) ∧
    commentLineL "import os".data = "import os".data :=
  ⟨by decide, ⟨by decide, by decide⟩,
    ((c3_comment_demotion "hello\nimport os").2 "hello".data (by decide)).1
      ⟨by decide, by decide⟩,
    by decide, Or.inr (by decide),
    ((c3_comment_demotion "hello\nimport os").2 "import os".data (by decide)).2
      (Or.inr (by decide))⟩

/-- Claim C9: keyword recognition in the cleaning pass is by raw string
prefix of the stripped line, not by token: any line whose stripped text
merely begins with `from`, `import`, `def` or `assert` is kept verbatim. -/
theorem c9_raw_prefix_recognition (l : Chars)
    (h : "from".data.isPrefixOf (stripL l) = true ∨
         "import".data.isPrefixOf (stripL l) = true ∨
         "def".data.isPrefixOf (stripL l) = true ∨
         "assert".data.isPrefixOf (stripL l) = true) :
    commentLineL l = l := by
  refine commentLineL_eq_self (Or.inr ?_)
  rw [hasMarkerB]
  rcases h with h | h | h | h
  · exact List.any_eq_true.mpr ⟨"from".data, by decide, h⟩
  · exact List.any_eq_true.mpr ⟨"import".data, by decide, h⟩
  · exact List.any_eq_true.mpr ⟨"def".data, by decide, h⟩
  · exact List.any_eq_true.mpr ⟨"assert".data, by decide, h⟩

theorem c9_raw_prefix_recognition_witness :
    ("def".data.isPrefixOf (stripL "definitely not python code".data) = true) ∧
    commentLineL "definitely not python code".data =
      "definitely not python code".data :=
  ⟨by decide,
    c9_raw_prefix_recognition "definitely not python code".data
      (Or.inr (Or.inr (Or.inl (by decide))))⟩

set_option maxRecDepth 8192 in
/-- Claim C8: `get_api_key` fails with the configuration error carrying
platform-specific setup instructions exactly when the environment value is
unset or whitespace-blank, returns the trimmed value otherwise, and a run
with a missing credential performs zero POST attempts and writes nothing. -/
theorem c8_credential_check :
    ("Linux/macOS".data <:+: apiKeyMessage.data ∧
     "Windows CMD".data <:+: apiKeyMessage.data ∧
     "PowerShell".data <:+: apiKeyMessage.data) ∧
    (∀ env : Option String,
      ((∃ msg, get_api_key env = Except.error msg) ↔ pyStrip (env.getD "") = "") ∧
      (pyStrip (env.getD "") = "" → get_api_key env = Except.error apiKeyMessage) ∧
      (pyStrip (env.getD "") ≠ "" →
        get_api_key env = Except.ok (pyStrip (env.getD "")))) ∧
    (∀ (env : Option String) (transport : Nat → Nat × Json) (p : FPath)
        (src : String), pyStrip (env.getD "") = "" →
      (generateRun true env transport p src).attempts = 0 ∧
      (generateRun true env transport p src).writes = [] ∧
      (generateRun true env transport p src).result =
        Except.error (GenError.configError apiKeyMessage)) := by
  refine ⟨⟨by decide, by decide, by decide⟩, ?_, ?_⟩
  · intro env
    refine ⟨⟨?_, ?_⟩, ?_, ?_⟩
    · rintro ⟨msg, hmsg⟩
      by_contra hne
      rw [get_api_key] at hmsg
      simp only [if_neg hne] at hmsg
      exact Except.noConfusion hmsg
    · intro h
      rw [get_api_key]
      simp only [if_pos h]
      exact ⟨apiKeyMessage, rfl⟩
    · intro h
      rw [get_api_key]
      simp only [if_pos h]
    · intro h
      rw [get_api_key]
      simp only [if_neg h]
  · intro env transport p src h
    have hkey : get_api_key env = Except.error apiKeyMessage := by
      rw [get_api_key]
      simp only [if_pos h]
    refine ⟨?_, ?_, ?_⟩ <;> simp [generateRun, hkey]

theorem c8_credential_check_witness :
    (pyStrip ((some "   " : Option String).getD "") = "") ∧
    (generateRun true (some "   ") (fun _ => (200, Json.obj [])) ⟨"src", "app.py"⟩
      "x = 1").attempts = 0 ∧
    (generateRun true (some "   ") (fun _ => (200, Json.obj [])) ⟨"src", "app.py"⟩
      "x = 1").writes = [] ∧
    (generateRun true (some "   ") (fun _ => (200, Json.obj [])) ⟨"src", "app.py"⟩
      "x = 1").result = Except.error (GenError.configError apiKeyMessage) :=
  ⟨by decide,
    (c8_credential_check.2.2 (some "   ") (fun _ => (200, Json.obj []))
      ⟨"src", "app.py"⟩ "x = 1" (by decide))⟩

theorem pyStrip_eq_empty_iff (s : String) : pyStrip s = "" ↔ stripL s.data = [] := by
  constructor
  · intro h
    have := congrArg String.data h
    simpa [pyStrip] using this
  · intro h
    rw [pyStrip, h]

theorem parseResponse_absentOrEmpty {kvs : List (String × Json)}
    (h : absentOrEmptyB kvs = true) :
    parseResponse (Json.obj kvs) = Except.error GenError.runtimeError := by
  have hempty : pyStrip "" = "" := rfl
  cases hc : lookupJ kvs "choices" with
  | none =>
    simp [parseResponse, extractChecked, extractContent, hc, hempty, lookupJ]
  | some j =>
    cases j with
    | arr xs =>
      cases xs with
      | nil => simp [parseResponse, extractChecked, extractContent, hc]
      | cons c0 tail =>
        cases c0 with
        | obj ckvs =>
          cases hm : lookupJ ckvs "message" with
          | none =>
            simp [parseResponse, extractChecked, extractContent, hc, hm,
              hempty, lookupJ]
          | some m =>
            cases m with
            | obj mkvs =>
              cases hcont : lookupJ mkvs "content" with
              | none =>
                simp [parseResponse, extractChecked, extractContent, hc, hm,
                  hcont, hempty, lookupJ]
              | some cv =>
                cases cv with
                | str s =>
                  have hred : absentOrEmptyB kvs = (stripL s.data).isEmpty := by
                    simp [absentOrEmptyB, hc, hm, hcont]
                  rw [hred] at h
                  have hs : pyStrip s = "" :=
                    (pyStrip_eq_empty_iff s).mpr (by simpa using h)
                  simp [parseResponse, extractChecked, extractContent, hc, hm,
                    hcont, hs]
                | null =>
                  rw [show absentOrEmptyB kvs = false from by
                    simp [absentOrEmptyB, hc, hm, hcont]] at h
                  exact absurd h (by simp)
                | bool b =>
                  rw [show absentOrEmptyB kvs = false from by
                    simp [absentOrEmptyB, hc, hm, hcont]] at h
                  exact absurd h (by simp)
                | num n =>
                  rw [show absentOrEmptyB kvs = false from by
                    simp [absentOrEmptyB, hc, hm, hcont]] at h
                  exact absurd h (by simp)
                | arr a =>
                  rw [show absentOrEmptyB kvs = false from by
                    simp [absentOrEmptyB, hc, hm, hcont]] at h
                  exact absurd h (by simp)
                | obj o =>
                  rw [show absentOrEmptyB kvs = false from by
                    simp [absentOrEmptyB, hc, hm, hcont]] at h
                  exact absurd h (by simp)
            | null =>
              rw [show absentOrEmptyB kvs = false from by
                simp [absentOrEmptyB, hc, hm]] at h
              exact absurd h (by simp)
            | bool b =>
              rw [show absentOrEmptyB kvs = false from by
                simp [absentOrEmptyB, hc, hm]] at h
              exact absurd h (by simp)
            | num n =>
              rw [show absentOrEmptyB kvs = false from by
                simp [absentOrEmptyB, hc, hm]] at h
              exact absurd h (by simp)
            | str s =>
              rw [show absentOrEmptyB kvs = false from by
                simp [absentOrEmptyB, hc, hm]] at h
              exact absurd h (by simp)
            | arr a =>
              rw [show absentOrEmptyB kvs = false from by
                simp [absentOrEmptyB, hc, hm]] at h
              exact absurd h (by simp)
        | null =>
          rw [show absentOrEmptyB kvs = false from by
            simp [absentOrEmptyB, hc]] at h
          exact absurd h (by simp)
        | bool b =>
          rw [show absentOrEmptyB kvs = false from by
            simp [absentOrEmptyB, hc]] at h
          exact absurd h (by simp)
        | num n =>
          rw [show absentOrEmptyB kvs = false from by
            simp [absentOrEmptyB, hc]] at h
          exact absurd h (by simp)
        | str s =>
          rw [show absentOrEmptyB kvs = false from by
            simp [absentOrEmptyB, hc]] at h
          exact absurd h (by simp)
        | arr a =>
          rw [show absentOrEmptyB kvs = false from by
            simp [absentOrEmptyB, hc]] at h
          exact absurd h (by simp)
    | null =>
      rw [show absentOrEmptyB kvs = false from by simp [absentOrEmptyB, hc]] at h
      exact absurd h (by simp)
    | bool b =>
      rw [show absentOrEmptyB kvs = false from by simp [absentOrEmptyB, hc]] at h
      exact absurd h (by simp)
    | num n =>
      rw [show absentOrEmptyB kvs = false from by simp [absentOrEmptyB, hc]] at h
      exact absurd h (by simp)
    | str s =>
      rw [show absentOrEmptyB kvs = false from by simp [absentOrEmptyB, hc]] at h
      exact absurd h (by simp)
    | obj o =>
      rw [show absentOrEmptyB kvs = false from by simp [absentOrEmptyB, hc]] at h
      exact absurd h (by simp)

theorem extractChecked_choices_missing {kvs : List (String × Json)}
    (h : lookupJ kvs "choices" = none) :
    extractChecked (Json.obj kvs) = Except.error PyExc.valueError := by
  have hempty : pyStrip "" = "" := rfl
  simp [extractChecked, extractContent, h, hempty, lookupJ]

/-- Claim C5: for every response body in which `choices[0].message.content`
is absent at some key or strips to the empty string, the parse phase fails
with the wrapped `RuntimeError` kind; missing keys default to the empty
string, surfacing as the `ValueError` kind rather than an uncaught
`KeyError`; and a run receiving such a body over a 200 response fails with
the `RuntimeError` kind and writes no file. -/
theorem c5_empty_or_malformed_response :
    (∀ kvs : List (String × Json), absentOrEmptyB kvs = true →
      parseResponse (Json.obj kvs) = Except.error GenError.runtimeError) ∧
    (∀ kvs : List (String × Json), lookupJ kvs "choices" = none →
      extractChecked (Json.obj kvs) = Except.error PyExc.valueError) ∧
    (∀ (kvs : List (String × Json)) (env : Option String) (p : FPath)
        (src key : String), get_api_key env = Except.ok key →
      absentOrEmptyB kvs = true →
      (generateRun true env (fun _ => (200, Json.obj kvs)) p src).result =
        Except.error GenError.runtimeError ∧
      (generateRun true env (fun _ => (200, Json.obj kvs)) p src).writes = []) := by
  refine ⟨fun kvs h => parseResponse_absentOrEmpty h,
    fun kvs h => extractChecked_choices_missing h, ?_⟩
  intro kvs env p src key hkey habs
  have hloop : retryLoop (fun _ => (200, Json.obj kvs)) = (1, (200, Json.obj kvs)) := rfl
  constructor <;>
    simp [generateRun, hkey, hloop, parseResponse_absentOrEmpty habs]

theorem c5_empty_or_malformed_response_witness :
    (get_api_key (some "sk-test") = Except.ok "sk-test") ∧
    (absentOrEmptyB [] = true) ∧
    (generateRun true (some "sk-test") (fun _ => (200, Json.obj []))
      ⟨"src", "app.py"⟩ "x = 1").result = Except.error GenError.runtimeError ∧
    (generateRun true (some "sk-test") (fun _ => (200, Json.obj []))
      ⟨"src", "app.py"⟩ "x = 1").writes = [] :=
  ⟨rfl, rfl,
    c5_empty_or_malformed_response.2.2 [] (some "sk-test") ⟨"src", "app.py"⟩
      "x = 1" "sk-test" rfl rfl⟩

/-- Claim C1: the retry loop issues POSTs until the first non-429 status
or `MAX_RETRIES` attempts, whichever comes first; with statuses
429, 429, 200 a run performs exactly 3 attempts and succeeds; with every
attempt rate-limited it performs exactly 3 attempts, fails with the
terminal transport error for status 429, and writes no file. -/
theorem c1_retry_policy :
    (∀ transport : Nat → Nat × Json,
      1 ≤ (retryLoop transport).1 ∧
      (retryLoop transport).1 ≤ MAX_RETRIES ∧
      (∀ i, 1 ≤ i → i < (retryLoop transport).1 → (transport i).1 = 429) ∧
      ((transport (retryLoop transport).1).1 ≠ 429 ∨
        (retryLoop transport).1 = MAX_RETRIES) ∧
      (retryLoop transport).2 = transport (retryLoop transport).1) ∧
    (∀ (transport : Nat → Nat × Json) (env : Option String) (p : FPath)
        (src key s : String), get_api_key env = Except.ok key →
      (transport 1).1 = 429 → (transport 2).1 = 429 → (transport 3).1 = 200 →
      parseResponse (transport 3).2 = Except.ok s →
      (generateRun true env transport p src).attempts = 3 ∧
      ∃ out, (generateRun true env transport p src).result = Except.ok out) ∧
    (∀ (transport : Nat → Nat × Json) (env : Option String) (p : FPath)
        (src key : String), get_api_key env = Except.ok key →
      (∀ i, (transport i).1 = 429) →
      (generateRun true env transport p src).attempts = 3 ∧
      (generateRun true env transport p src).result =
        Except.error (GenError.httpError 429) ∧
      (generateRun true env transport p src).writes = []) := by
  refine ⟨?_, ?_, ?_⟩
  · intro t
    by_cases h1 : (t 1).1 = 429
    · by_cases h2 : (t 2).1 = 429
      · have h3 : retryLoop t = (3, t 3) := by
          show retryAux t 1 2 = _
          simp [retryAux, h1, h2]
        rw [h3]
        refine ⟨by omega, by simp [MAX_RETRIES], ?_, Or.inr rfl, rfl⟩
        intro i hi1 hi2
        interval_cases i
        · exact h1
        · exact h2
      · have h3 : retryLoop t = (2, t 2) := by
          show retryAux t 1 2 = _
          simp [retryAux, h1, h2]
        rw [h3]
        refine ⟨by omega, by simp [MAX_RETRIES], ?_, Or.inl h2, rfl⟩
        intro i hi1 hi2
        interval_cases i
        exact h1
    · have h3 : retryLoop t = (1, t 1) := by
        show retryAux t 1 2 = _
        simp [retryAux, h1]
      rw [h3]
      refine ⟨le_refl 1, by simp [MAX_RETRIES], ?_, Or.inl h1, rfl⟩
      intro i hi1 hi2
      omega
  · intro t env p src key s hkey h1 h2 h3 hparse
    have hloop : retryLoop t = (3, t 3) := by
      show retryAux t 1 2 = _
      simp [retryAux, h1, h2]
    have hstatus : ¬(400 ≤ (t 3).1 ∧ (t 3).1 < 600) := by rw [h3]; omega
    constructor
    · simp [generateRun, hkey, hloop, hstatus, hparse]
    · refine ⟨p.parent ++ "/" ++ ("test_" ++ p.name), ?_⟩
      simp [generateRun, hkey, hloop, hstatus, hparse]
  · intro t env p src key hkey hall
    have hloop : retryLoop t = (3, t 3) := by
      show retryAux t 1 2 = _
      simp [retryAux, hall 1, hall 2]
    have hstatus : 400 ≤ (t 3).1 ∧ (t 3).1 < 600 := by rw [hall 3]; omega
    refine ⟨?_, ?_, ?_⟩ <;> simp [generateRun, hkey, hloop, hstatus, hall 3]

theorem c1_retry_policy_witness :
    ((transportA 1).1 = 429 ∧ (transportA 2).1 = 429 ∧ (transportA 3).1 = 200 ∧
      parseResponse (transportA 3).2 = Except.ok "assert True" ∧
      get_api_key (some "sk-test") = Except.ok "sk-test") ∧
    ((generateRun true (some "sk-test") transportA ⟨"src", "app.py"⟩
        "x = 1").attempts = 3 ∧
      ∃ out, (generateRun true (some "sk-test") transportA ⟨"src", "app.py"⟩
        "x = 1").result = Except.ok out) ∧
    ((∀ i, (transportB i).1 = 429) ∧
      (generateRun true (some "sk-test") transportB ⟨"src", "app.py"⟩
        "x = 1").attempts = 3 ∧
      (generateRun true (some "sk-test") transportB ⟨"src", "app.py"⟩
        "x = 1").result = Except.error (GenError.httpError 429) ∧
      (generateRun true (some "sk-test") transportB ⟨"src", "app.py"⟩
        "x = 1").writes = []) :=
  ⟨⟨rfl, rfl, rfl, rfl, rfl⟩,
    c1_retry_policy.2.1 transportA (some "sk-test") ⟨"src", "app.py"⟩
      "x = 1" "sk-test" "assert True" rfl rfl rfl rfl rfl,
    ⟨fun _ => rfl,
      c1_retry_policy.2.2 transportB (some "sk-test") ⟨"src", "app.py"⟩
        "x = 1" "sk-test" rfl (fun _ => rfl)⟩⟩

/-- Claim C4 counterexample: on the input `basbashh` one application of
the cleaning transformation yields `# bash` (the comment pass inserts
`# `, the replacement deletes the inner `bash`), while a second
application deletes the remaining `bash`, so the transformation is not
idempotent. -/
theorem c4_idempotence_counterexample :
    cleanResponse "basbashh" = "# bash" ∧
    cleanResponse (cleanResponse "basbashh") = "#" ∧
    cleanResponse (cleanResponse "basbashh") ≠ cleanResponse "basbashh" := by
  decide

/-- Claim C4 (amended): on every input containing neither the fence marker
nor the substring `bash`, the cleaning transformation (comment demotion,
fence removal, `bash` removal, whitespace trims) is idempotent. -/
theorem c4_idempotence_amended (s : String)
    (hf : ¬ ("```".data <:+: s.data)) (hb : ¬ ("bash".data <:+: s.data)) :
    cleanResponse (cleanResponse s) = cleanResponse s := by
  show (⟨cleanL (cleanResponse s).data⟩ : String) = ⟨cleanL s.data⟩
  have h1 : (cleanResponse s).data = cleanL s.data := rfl
  rw [h1, cleanL_idem_of_not_infix hf hb]

theorem c4_idempotence_amended_witness :
    (¬ ("```".data <:+: ("hello world\nx = 1" : String).data)) ∧
    (¬ ("bash".data <:+: ("hello world\nx = 1" : String).data)) ∧
    cleanResponse (cleanResponse "hello world\nx = 1") =
      cleanResponse "hello world\nx = 1" :=
  ⟨by decide, by decide, c4_idempotence_amended "hello world\nx = 1"
    (by decide) (by decide)⟩

theorem rtrimL_append_of_ne_nil {b : Chars} (hb : rtrimL b ≠ []) :
    ∀ a : Chars, rtrimL (a ++ b) = a ++ rtrimL b := by
  intro a
  induction a with
  | nil => simp
  | cons c a' ih =>
    have hne : rtrimL (a' ++ b) ≠ [] := by
      rw [ih]
      intro hx
      rcases List.append_eq_nil.mp hx with ⟨-, h2⟩
      exact hb h2
    rw [List.cons_append, rtrimL_cons_of_ne_nil hne, ih, List.cons_append]

theorem stripL_wrap_quote3 (x : Chars) :
    stripL (quote3 ++ x ++ quote3) = quote3 ++ x ++ quote3 := by
  have hq : rtrimL quote3 = quote3 := by decide
  have h2 : rtrimL (x ++ quote3) = x ++ quote3 := by
    rw [rtrimL_append_of_ne_nil (by rw [hq]; decide) x, hq]
  have h2ne : rtrimL (x ++ quote3) ≠ [] := by
    rw [h2]
    intro hx
    rcases List.append_eq_nil.mp hx with ⟨-, h3⟩
    exact absurd h3 (by decide)
  show stripL ('"' :: ('"' :: '"' :: (x ++ quote3))) = _
  rw [stripL_cons_of_not_space (by decide),
    rtrimL_cons_of_ne_nil (by rw [rtrimL_cons_of_ne_nil h2ne]; simp),
    rtrimL_cons_of_ne_nil h2ne, h2]
  rfl

theorem extractBlocks_no_block {s : Chars} (h : hasPyBlockB s = false) :
    extractBlocks s = ([s], []) := by
  rw [extractBlocks]
  cases hl : s.length with
  | zero => rfl
  | succ n =>
    cases hfs : findSplit pythonFence s with
    | none => simp [extractBlocksAux, hfs]
    | some pr =>
      obtain ⟨pre, rest⟩ := pr
      cases hfm : findSplit fenceMarker rest with
      | none => simp [extractBlocksAux, hfs, hfm]
      | some q =>
        rw [show hasPyBlockB s = true from by simp [hasPyBlockB, hfs, hfm]] at h
        exact absurd h (by simp)

theorem clean_api_no_block {s : Chars} (h : hasPyBlockB s = false)
    (hne : stripL s ≠ []) :
    clean_api_responseL s = quote3 ++ stripL s ++ quote3 := by
  have hblocks := extractBlocks_no_block h
  have hif : (stripL s).isEmpty = false := by simpa using hne
  have hsp2 : ∀ c ∈ ['\n', '\n'], isSpaceCh c = true := by decide
  simp only [clean_api_responseL, hblocks, List.map_cons, List.map_nil, hif,
    Bool.false_eq_true, if_false]
  rw [show joinNL [quote3 ++ stripL s ++ quote3] = quote3 ++ stripL s ++ quote3
      from rfl,
    show stripL (joinNN ([] : List Chars)) = [] from rfl,
    stripL_wrap_quote3,
    show (quote3 ++ stripL s ++ quote3) ++ '\n' :: '\n' :: ([] : Chars) =
      (quote3 ++ stripL s ++ quote3) ++ ['\n', '\n'] from rfl,
    stripL_append_allspace hsp2, stripL_wrap_quote3]

/-- Claim C10 counterexample: the empty input contains no python-tagged
fenced block, yet `clean_api_response` returns the empty string rather
than the triple-quoted wrap of the stripped input. -/
theorem c10_no_block_counterexample :
    hasPyBlockB ("" : String).data = false ∧
    clean_api_response "" = "" ∧
    clean_api_response "" ≠ "\"\"\"\"\"\"" := by
  decide

/-- Claim C10 (amended): for every input with no python-tagged fenced
block whose stripped form is non-empty, `clean_api_response` extracts no
code and returns the stripped input wrapped in a triple-quoted literal,
so every character of the stripped input (backticks of non-python fences
included) survives in the output. -/
theorem c10_no_python_block_amended (s : String) (h : hasPyBlockB s.data = false)
    (hne : stripL s.data ≠ []) :
    (extractBlocks s.data).2 = [] ∧
    (clean_api_response s).data = quote3 ++ stripL s.data ++ quote3 ∧
    (∀ c ∈ stripL s.data, c ∈ (clean_api_response s).data) := by
  have heq : (clean_api_response s).data = quote3 ++ stripL s.data ++ quote3 :=
    clean_api_no_block h hne
  refine ⟨by rw [extractBlocks_no_block h], heq, ?_⟩
  intro c hc
  rw [heq]
  exact List.mem_append.mpr (Or.inl (List.mem_append.mpr (Or.inr hc)))

theorem c10_no_python_block_amended_witness :
    hasPyBlockB ("prose with a ``js`` fence" : String).data = false ∧
    stripL ("prose with a ``js`` fence" : String).data ≠ [] ∧
    (extractBlocks ("prose with a ``js`` fence" : String).data).2 = [] ∧
    (clean_api_response "prose with a ``js`` fence").data =
      quote3 ++ stripL ("prose with a ``js`` fence" : String).data ++ quote3 :=
  ⟨by decide, by decide,
    (c10_no_python_block_amended "prose with a ``js`` fence" (by decide)
      (by decide)).1,
    (c10_no_python_block_amended "prose with a ``js`` fence" (by decide)
      (by decide)).2.1⟩

theorem findSplit_none_of_head_not_mem {pat : Chars} {h0 : Char} {ps : Chars}
    (hpat : pat = h0 :: ps) :
    ∀ {s : Chars}, h0 ∉ s → findSplit pat s = none := by
  subst hpat
  intro s
  induction s with
  | nil => intro _; rfl
  | cons c rest ih =>
    intro hmem
    have hne : h0 ≠ c := fun hx => hmem (hx ▸ List.mem_cons_self _ _)
    have hpre : (h0 :: ps).isPrefixOf (c :: rest) = false := by
      rw [Bool.eq_false_iff, ne_eq, List.isPrefixOf_iff_prefix]
      intro hx
      exact hne (List.cons_prefix_cons.mp hx).1
    have hrest := ih fun hx => hmem (List.mem_cons_of_mem _ hx)
    simp [findSplit, hpre, hrest]

theorem findSplit_boundary {pat : Chars} {h0 : Char} {ps : Chars}
    (hpat : pat = h0 :: ps) :
    ∀ {a : Chars} (t : Chars), h0 ∉ a →
      findSplit pat (a ++ (pat ++ t)) = some (a, t) := by
  subst hpat
  intro a
  induction a with
  | nil =>
    intro t _
    rw [List.nil_append]
    have hpre : (h0 :: ps).isPrefixOf (h0 :: (ps ++ t)) = true :=
      List.isPrefixOf_iff_prefix.mpr
        (by rw [show h0 :: (ps ++ t) = (h0 :: ps) ++ t from rfl]
            exact List.prefix_append _ _)
    show findSplit (h0 :: ps) (h0 :: (ps ++ t)) = some ([], t)
    simp only [findSplit]
    rw [if_pos hpre]
    simp only [List.length_cons, List.drop_succ_cons, Option.some.injEq,
      Prod.mk.injEq, true_and]
    exact List.drop_left ps t
  | cons c a' ih =>
    intro t hmem
    have hne : h0 ≠ c := fun hx => hmem (hx ▸ List.mem_cons_self _ _)
    have hpre : (h0 :: ps).isPrefixOf
        (c :: (a' ++ ((h0 :: ps) ++ t))) = false := by
      rw [Bool.eq_false_iff, ne_eq, List.isPrefixOf_iff_prefix]
      intro hx
      exact hne (List.cons_prefix_cons.mp hx).1
    have hrest := ih t fun hx => hmem (List.mem_cons_of_mem _ hx)
    show findSplit (h0 :: ps) (c :: (a' ++ ((h0 :: ps) ++ t))) = some (c :: a', t)
    simp only [findSplit]
    rw [if_neg (by rw [hpre]; exact Bool.false_ne_true), hrest]

theorem extractBlocksAux_none {s : Chars} (h : findSplit pythonFence s = none) :
    ∀ fuel, extractBlocksAux fuel s = ([s], []) := by
  intro fuel
  cases fuel with
  | zero => rfl
  | succ n => simp [extractBlocksAux, h]

theorem stripL_eq_self_of {s : Chars}
    (hh : ∀ c, s.head? = some c → isSpaceCh c = false) (hr : rtrimL s = s) :
    stripL s = s := by
  cases s with
  | nil => rfl
  | cons c r => rw [stripL, ltrimL_cons_of_not_space (hh c rfl), hr]

set_option maxRecDepth 8192 in
/-- Claim C6: on an input made of prose, one python-tagged fenced block
holding `assert 1==1`, and trailing prose (prose free of backticks and
non-blank), the alternate cleaning strategy wraps each prose span in a
triple-quoted block placed before the code, leaves the extracted
`assert 1==1` line outside any fence, and no backtick survives. -/
theorem c6_alternate_cleaning (pre post : String)
    (hpre : '`' ∉ pre.data) (hpost : '`' ∉ post.data)
    (hpre2 : stripL pre.data ≠ []) (hpost2 : stripL post.data ≠ []) :
    (clean_api_response (pre ++ "```python\nassert 1==1\n```" ++ post)).data =
      ((quote3 ++ stripL pre.data ++ quote3) ++ '\n' ::
        (quote3 ++ stripL post.data ++ quote3)) ++
        '\n' :: '\n' :: "assert 1==1".data ∧
    "assert 1==1".data <:+:
      (clean_api_response (pre ++ "```python\nassert 1==1\n```" ++ post)).data ∧
    '`' ∉ (clean_api_response (pre ++ "```python\nassert 1==1\n```" ++ post)).data := by
  have hmid : ("```python\nassert 1==1\n```" : String).data =
      pythonFence ++ ("\nassert 1==1\n".data ++ fenceMarker) := by decide
  have hshape : (pre ++ "```python\nassert 1==1\n```" ++ post).data =
      pre.data ++ (pythonFence ++ ("\nassert 1==1\n".data ++
        (fenceMarker ++ post.data))) := by
    rw [show (pre ++ "```python\nassert 1==1\n```" ++ post) =
        ((pre ++ "```python\nassert 1==1\n```") ++ post) from rfl,
      String.data_append, String.data_append, hmid]
    simp only [List.append_assoc]
  have h1 : findSplit pythonFence
      (pre ++ "```python\nassert 1==1\n```" ++ post).data =
      some (pre.data, "\nassert 1==1\n".data ++ (fenceMarker ++ post.data)) := by
    rw [hshape]
    exact findSplit_boundary rfl _ hpre
  have h2 : findSplit fenceMarker
      ("\nassert 1==1\n".data ++ (fenceMarker ++ post.data)) =
      some ("\nassert 1==1\n".data, post.data) :=
    findSplit_boundary rfl _ (by decide)
  have h3 : findSplit pythonFence post.data = none :=
    findSplit_none_of_head_not_mem rfl hpost
  have hcompute : extractBlocks (pre ++ "```python\nassert 1==1\n```" ++ post).data =
      ([pre.data, post.data], ["\nassert 1==1\n".data]) := by
    obtain ⟨n, hn⟩ : ∃ n,
        (pre ++ "```python\nassert 1==1\n```" ++ post).data.length = n + 1 := by
      have hpos : 0 < (pre ++ "```python\nassert 1==1\n```" ++ post).data.length := by
        rw [hshape]
        simp only [List.length_append]
        have h9 : pythonFence.length = 9 := rfl
        omega
      refine ⟨(pre ++ "```python\nassert 1==1\n```" ++ post).data.length - 1, ?_⟩
      omega
    rw [extractBlocks, hn]
    simp only [extractBlocksAux, h1, h2, extractBlocksAux_none h3 n]
  have hif1 : (stripL pre.data).isEmpty = false := by simpa using hpre2
  have hif2 : (stripL post.data).isEmpty = false := by simpa using hpost2
  have hq : rtrimL quote3 = quote3 := by decide
  have hwrap_r : ∀ x : Chars, rtrimL (quote3 ++ x ++ quote3) =
      quote3 ++ x ++ quote3 := by
    intro x
    have hx : rtrimL (x ++ quote3) = x ++ quote3 := by
      rw [rtrimL_append_of_ne_nil (by rw [hq]; decide) x, hq]
    calc rtrimL ((quote3 ++ x) ++ quote3)
        = (quote3 ++ x) ++ rtrimL quote3 :=
          rtrimL_append_of_ne_nil (by rw [hq]; decide) _
      _ = (quote3 ++ x) ++ quote3 := by rw [hq]
  have hw2ne : (quote3 ++ stripL post.data ++ quote3 : Chars) ≠ [] := by
    intro hx
    rcases List.append_eq_nil.mp hx with ⟨-, h4⟩
    exact absurd h4 (by decide)
  have hcomm_r : rtrimL ((quote3 ++ stripL pre.data ++ quote3) ++
      '\n' :: (quote3 ++ stripL post.data ++ quote3)) =
      (quote3 ++ stripL pre.data ++ quote3) ++
      '\n' :: (quote3 ++ stripL post.data ++ quote3) := by
    have hb : rtrimL ('\n' :: (quote3 ++ stripL post.data ++ quote3)) =
        '\n' :: (quote3 ++ stripL post.data ++ quote3) := by
      rw [rtrimL_cons_of_ne_nil (by rw [hwrap_r]; exact hw2ne), hwrap_r]
    rw [rtrimL_append_of_ne_nil (by rw [hb]; simp), hb]
  have hstrip_mid : stripL "\nassert 1==1\n".data = "assert 1==1".data := by decide
  have hout : (clean_api_response
      (pre ++ "```python\nassert 1==1\n```" ++ post)).data =
      ((quote3 ++ stripL pre.data ++ quote3) ++ '\n' ::
        (quote3 ++ stripL post.data ++ quote3)) ++
        '\n' :: '\n' :: "assert 1==1".data := by
    show clean_api_responseL (pre ++ "```python\nassert 1==1\n```" ++ post).data = _
    simp only [clean_api_responseL, hcompute, List.map_cons, List.map_nil,
      hif1, hif2, Bool.false_eq_true, if_false]
    rw [show joinNL [quote3 ++ stripL pre.data ++ quote3,
        quote3 ++ stripL post.data ++ quote3] =
        (quote3 ++ stripL pre.data ++ quote3) ++
          '\n' :: (quote3 ++ stripL post.data ++ quote3) from rfl,
      show joinNN ["\nassert 1==1\n".data] = "\nassert 1==1\n".data from rfl,
      hstrip_mid]
    rw [stripL_eq_self_of (fun c hc => by
        rw [show ((quote3 ++ stripL pre.data ++ quote3) ++
          '\n' :: (quote3 ++ stripL post.data ++ quote3)).head? =
          some '"' from rfl, Option.some.injEq] at hc
        rw [← hc]
        decide) hcomm_r]
    refine stripL_eq_self_of (fun c hc => by
      rw [show (((quote3 ++ stripL pre.data ++ quote3) ++
        '\n' :: (quote3 ++ stripL post.data ++ quote3)) ++
        '\n' :: '\n' :: "assert 1==1".data).head? = some '"' from rfl,
        Option.some.injEq] at hc
      rw [← hc]
      decide) ?_
    have hassert : rtrimL ('\n' :: '\n' :: "assert 1==1".data) =
        '\n' :: '\n' :: "assert 1==1".data := by decide
    rw [rtrimL_append_of_ne_nil (by rw [hassert]; simp), hassert]
  refine ⟨hout, ?_, ?_⟩
  · refine ⟨((quote3 ++ stripL pre.data ++ quote3) ++ '\n' ::
      (quote3 ++ stripL post.data ++ quote3)) ++ ['\n', '\n'], [], ?_⟩
    rw [hout]
    simp [List.append_assoc]
  · intro hmem
    rw [hout] at hmem
    have hsubpre : stripL pre.data <:+: pre.data := stripL_infix_self _
    have hsubpost : stripL post.data <:+: post.data := stripL_infix_self _
    rcases List.mem_append.mp hmem with hm | hm
    · rcases List.mem_append.mp hm with hm2 | hm2
      · rcases List.mem_append.mp hm2 with hm3 | hm3
        · rcases List.mem_append.mp hm3 with hm4 | hm4
          · exact absurd hm4 (by decide)
          · exact hpre (hsubpre.subset hm4)
        · exact absurd hm3 (by decide)
      · rcases List.mem_cons.mp hm2 with hm3 | hm3
        · exact absurd hm3 (by decide)
        · rcases List.mem_append.mp hm3 with hm4 | hm4
          · rcases List.mem_append.mp hm4 with hm5 | hm5
            · exact absurd hm5 (by decide)
            · exact hpost (hsubpost.subset hm5)
          · exact absurd hm4 (by decide)
    · rcases List.mem_cons.mp hm with hm2 | hm2
      · exact absurd hm2 (by decide)
      · rcases List.mem_cons.mp hm2 with hm3 | hm3
        · exact absurd hm3 (by decide)
        · exact absurd hm3 (by decide)

theorem c6_alternate_cleaning_witness :
    ('`' ∉ ("Here is the test: " : String).data) ∧
    ('`' ∉ (" Done." : String).data) ∧
    stripL ("Here is the test: " : String).data ≠ [] ∧
    stripL (" Done." : String).data ≠ [] ∧
    '`' ∉ (clean_api_response
      ("Here is the test: " ++ "```python\nassert 1==1\n```" ++ " Done.")).data :=
  ⟨by decide, by decide, by decide, by decide,
    (c6_alternate_cleaning "Here is the test: " " Done." (by decide) (by decide)
      (by decide) (by decide)).2.2⟩

theorem rtrimL_eq_self_of_stripL {y : Chars} (h : stripL y = y) :
    rtrimL y = y := by
  have hl : ltrimL y <:+ y := List.dropWhile_suffix _
  have hlen1 : (rtrimL (ltrimL y)).length ≤ (ltrimL y).length :=
    (rtrimL_prefix_self _).length_le
  have hlen2 : (ltrimL y).length ≤ y.length := hl.length_le
  have hlen3 : (stripL y).length = y.length := by rw [h]
  rw [stripL] at hlen3
  have hle : ltrimL y = y := hl.eq_of_length (by omega)
  rw [stripL, hle] at h
  exact h

theorem string_data_ne_nil {s : String} (h : s ≠ "") : s.data ≠ [] := by
  intro hd
  exact h (String.ext (hd.trans rfl))

set_option maxHeartbeats 1600000 in
/-- Claim C7: on a module body with two functions carrying the exact
unparameterized marker decorator and one undecorated function between
them, `extract_marked_definitions` ignores the unmarked function entirely,
begins with the synthetic import line, contains both marked sources, and
omits the unmarked source; parameterized (call) and aliased decorator
forms are not recognised as markers.  The last marked source is assumed
trimmed and non-empty, as source segments of definitions are. -/
theorem c7_extract_marked (nm1 nm2 nmg alias2 s1 s2 g : String)
    (h2 : pyStrip s2 = s2) (hs2 : s2 ≠ "")
    (hg : ¬ (g.data <:+: (extract_marked_definitions
        [PyStmt.funcDef nm1 [DecoExpr.name "include_in_test"] s1,
         PyStmt.funcDef nm2 [DecoExpr.name "include_in_test"] s2]).data))
    (halias : alias2 ≠ "include_in_test") :
    (extract_marked_definitions
        [PyStmt.funcDef nm1 [DecoExpr.name "include_in_test"] s1,
         PyStmt.funcDef nmg [] g,
         PyStmt.funcDef nm2 [DecoExpr.name "include_in_test"] s2] =
      extract_marked_definitions
        [PyStmt.funcDef nm1 [DecoExpr.name "include_in_test"] s1,
         PyStmt.funcDef nm2 [DecoExpr.name "include_in_test"] s2]) ∧
    syntheticImport.data <+: (extract_marked_definitions
        [PyStmt.funcDef nm1 [DecoExpr.name "include_in_test"] s1,
         PyStmt.funcDef nmg [] g,
         PyStmt.funcDef nm2 [DecoExpr.name "include_in_test"] s2]).data ∧
    s1.data <:+: (extract_marked_definitions
        [PyStmt.funcDef nm1 [DecoExpr.name "include_in_test"] s1,
         PyStmt.funcDef nmg [] g,
         PyStmt.funcDef nm2 [DecoExpr.name "include_in_test"] s2]).data ∧
    s2.data <:+: (extract_marked_definitions
        [PyStmt.funcDef nm1 [DecoExpr.name "include_in_test"] s1,
         PyStmt.funcDef nmg [] g,
         PyStmt.funcDef nm2 [DecoExpr.name "include_in_test"] s2]).data ∧
    ¬ (g.data <:+: (extract_marked_definitions
        [PyStmt.funcDef nm1 [DecoExpr.name "include_in_test"] s1,
         PyStmt.funcDef nmg [] g,
         PyStmt.funcDef nm2 [DecoExpr.name "include_in_test"] s2]).data) ∧
    isMarkedDef (PyStmt.funcDef nmg
      [DecoExpr.call (DecoExpr.name "include_in_test")] g) = false ∧
    isMarkedDef (PyStmt.funcDef nmg [DecoExpr.name alias2] g) = false := by
  have hconj1 : extract_marked_definitions
      [PyStmt.funcDef nm1 [DecoExpr.name "include_in_test"] s1,
       PyStmt.funcDef nmg [] g,
       PyStmt.funcDef nm2 [DecoExpr.name "include_in_test"] s2] =
      extract_marked_definitions
      [PyStmt.funcDef nm1 [DecoExpr.name "include_in_test"] s1,
       PyStmt.funcDef nm2 [DecoExpr.name "include_in_test"] s2] := rfl
  have hZ : extract_marked_definitions
      [PyStmt.funcDef nm1 [DecoExpr.name "include_in_test"] s1,
       PyStmt.funcDef nm2 [DecoExpr.name "include_in_test"] s2] =
      pyStrip (syntheticImport ++ "\n\n" ++ (s1 ++ "\n\n" ++ s2)) := rfl
  have hr2 : rtrimL s2.data = s2.data :=
    rtrimL_eq_self_of_stripL (congrArg String.data h2)
  have hr2ne : rtrimL s2.data ≠ [] := by
    rw [hr2]
    exact string_data_ne_nil hs2
  have hflat : (syntheticImport ++ "\n\n" ++ (s1 ++ "\n\n" ++ s2)).data =
      ((syntheticImport.data ++ "\n\n".data) ++ (s1.data ++ "\n\n".data)) ++
        s2.data := by
    simp only [String.data_append, List.append_assoc]
  have hfix : stripL (syntheticImport ++ "\n\n" ++ (s1 ++ "\n\n" ++ s2)).data =
      (syntheticImport ++ "\n\n" ++ (s1 ++ "\n\n" ++ s2)).data := by
    rw [hflat]
    refine stripL_eq_self_of ?_ ?_
    · intro c hc
      rw [show (((syntheticImport.data ++ "\n\n".data) ++
          (s1.data ++ "\n\n".data)) ++ s2.data).head? = some 'f' from rfl,
        Option.some.injEq] at hc
      rw [← hc]
      decide
    · rw [rtrimL_append_of_ne_nil hr2ne, hr2]
  have hdata : (extract_marked_definitions
      [PyStmt.funcDef nm1 [DecoExpr.name "include_in_test"] s1,
       PyStmt.funcDef nm2 [DecoExpr.name "include_in_test"] s2]).data =
      ((syntheticImport.data ++ "\n\n".data) ++ (s1.data ++ "\n\n".data)) ++
        s2.data := by
    rw [hZ]
    show stripL (syntheticImport ++ "\n\n" ++ (s1 ++ "\n\n" ++ s2)).data = _
    rw [hfix, hflat]
  refine ⟨hconj1, ?_, ?_, ?_, ?_, rfl, ?_⟩
  · rw [hconj1, hdata]
    rw [List.append_assoc, List.append_assoc]
    exact List.prefix_append _ _
  · rw [hconj1, hdata]
    refine ⟨syntheticImport.data ++ "\n\n".data, "\n\n".data ++ s2.data, ?_⟩
    simp [List.append_assoc]
  · rw [hconj1, hdata]
    exact ⟨(syntheticImport.data ++ "\n\n".data) ++ (s1.data ++ "\n\n".data),
      [], by simp⟩
  · rw [hconj1]
    exact hg
  · simp [isMarkedDef, isMarkerDeco, halias]

set_option maxRecDepth 100000 in
theorem c7_extract_marked_witness :
    (pyStrip "def f2():\n    return 2" = "def f2():\n    return 2") ∧
    ("def f2():\n    return 2" : String) ≠ "" ∧
    (¬ (("def g():\n    return 3" : String).data <:+: (extract_marked_definitions
        [PyStmt.funcDef "f1" [DecoExpr.name "include_in_test"]
          "def f1():\n    return 1",
         PyStmt.funcDef "f2" [DecoExpr.name "include_in_test"]
          "def f2():\n    return 2"]).data)) ∧
    ("helper" : String) ≠ "include_in_test" ∧
    syntheticImport.data <+: (extract_marked_definitions
        [PyStmt.funcDef "f1" [DecoExpr.name "include_in_test"]
          "def f1():\n    return 1",
         PyStmt.funcDef "g" [] "def g():\n    return 3",
         PyStmt.funcDef "f2" [DecoExpr.name "include_in_test"]
          "def f2():\n    return 2"]).data ∧
    ¬ (("def g():\n    return 3" : String).data <:+: (extract_marked_definitions
        [PyStmt.funcDef "f1" [DecoExpr.name "include_in_test"]
          "def f1():\n    return 1",
         PyStmt.funcDef "g" [] "def g():\n    return 3",
         PyStmt.funcDef "f2" [DecoExpr.name "include_in_test"]
          "def f2():\n    return 2"]).data) :=
  ⟨by decide, by decide, by decide, by decide,
    (c7_extract_marked "f1" "f2" "g" "helper" "def f1():\n    return 1"
      "def f2():\n    return 2" "def g():\n    return 3" (by decide) (by decide)
      (by decide) (by decide)).2.1,
    (c7_extract_marked "f1" "f2" "g" "helper" "def f1():\n    return 1"
      "def f2():\n    return 2" "def g():\n    return 3" (by decide) (by decide)
      (by decide) (by decide)).2.2.2.2.1⟩

end PyTestAI

